import Mathlib

/-! Verification development for `Js/script.js`

Shallow embedding of the contact-form validation, the statistics counter, the
mobile menu, the active-link handler, the back-to-top control and the timing
wrappers `throttle` and `debounce` of `Js/script.js`, followed by the theorems
that settle the specification's claims about them.

Conventions of the embedding

* A JavaScript string is the list of its UTF-16 code units (`JsString`);
  `utf16` encodes a Lean string literal that way.
* Code that can throw returns `Option`: `none` stands for the `TypeError`
  raised by a property access on `null` (or by a missing method).
* JavaScript numbers are idealised as rationals: no IEEE-754 rounding, no
  infinities. The theorems below only rest on comparisons and on which branch
  is taken, never on rounded digits.
* Time is a natural number of milliseconds and a timer runs exactly when its
  delay has elapsed.
-/

namespace Cnrestate

/-! ## Strings -/

/-- A JavaScript string: the list of its UTF-16 code units. -/
abbrev JsString := List Nat

/-- UTF-16 code units of one Unicode scalar value. -/
def utf16Char (c : Char) : List Nat :=
  if c.toNat < 65536 then [c.toNat]
  else [55296 + (c.toNat - 65536) / 1024, 56320 + (c.toNat - 65536) % 1024]

/-- UTF-16 encoding of a Lean string, used to write JavaScript literals. -/
def utf16 (s : String) : JsString :=
  s.toList.flatMap utf16Char

/-- ECMAScript `WhiteSpace` or `LineTerminator` code unit: what `String.prototype.trim`
strips and what the regular-expression class `\s` matches. -/
def isJsSpace (c : Nat) : Bool :=
  c == 9 || c == 10 || c == 11 || c == 12 || c == 13 || c == 32 || c == 160 ||
  c == 5760 || (8192 ≤ c && c ≤ 8202) || c == 8232 || c == 8233 || c == 8239 ||
  c == 8287 || c == 12288 || c == 65279

/-- The regular-expression class `\d` (no `u` flag): ASCII digits. -/
def isDigit (c : Nat) : Bool :=
  48 ≤ c && c ≤ 57

/-- `String.prototype.trim`: strips white space from both ends. -/
def trim (s : JsString) : JsString :=
  ((s.dropWhile isJsSpace).reverse.dropWhile isJsSpace).reverse

/-! ## Regular expressions

Both patterns of the source are anchored at both ends (`^...$`, no flags), use
no back-references and no look-around, so `RegExp.prototype.test` decides
membership of the whole string in the language of the pattern body. The body
is represented as a `Regex` and `Regex.test` decides membership by
derivatives. -/

/-- Pattern bodies: character classes, concatenation, alternation, iteration. -/
inductive Regex where
  | none : Regex
  | eps : Regex
  | cls (p : Nat → Bool) : Regex
  | seq (r s : Regex) : Regex
  | alt (r s : Regex) : Regex
  | star (r : Regex) : Regex

namespace Regex

/-- The quantifier `+`. -/
def plus (r : Regex) : Regex := seq r (star r)

/-- Does the pattern accept the empty string? -/
def nullable : Regex → Bool
  | none => false
  | eps => true
  | cls _ => false
  | seq r s => nullable r && nullable s
  | alt r s => nullable r || nullable s
  | star _ => true

/-- Derivative of a pattern by one code unit. -/
def deriv : Regex → Nat → Regex
  | none, _ => none
  | eps, _ => none
  | cls p, c => if p c then eps else none
  | seq r s, c =>
    if nullable r then alt (seq (deriv r c) s) (deriv s c) else seq (deriv r c) s
  | alt r s, c => alt (deriv r c) (deriv s c)
  | star r, c => seq (deriv r c) (star r)

/-- The test `/^r$/.test(s)`. -/
def test (r : Regex) : JsString → Bool
  | [] => nullable r
  | c :: cs => test (deriv r c) cs

/-- Language of a pattern body. -/
inductive Matches : Regex → JsString → Prop
  | eps : Matches eps []
  | cls (p : Nat → Bool) (c : Nat) : p c = true → Matches (cls p) [c]
  | seq {r s : Regex} {u v : JsString} : Matches r u → Matches s v → Matches (seq r s) (u ++ v)
  | altL {r s : Regex} {u : JsString} : Matches r u → Matches (alt r s) u
  | altR {r s : Regex} {u : JsString} : Matches s u → Matches (alt r s) u
  | starNil {r : Regex} : Matches (star r) []
  | starCons {r : Regex} {u v : JsString} :
    Matches r u → Matches (star r) v → Matches (star r) (u ++ v)

end Regex

/-- The class `[^\s@]`. -/
def isEmailAtom (c : Nat) : Bool :=
  !(isJsSpace c || c == 64)

/-- The class `[\d\s\-\+\(\)]`. -/
def isPhoneChar (c : Nat) : Bool :=
  isDigit c || isJsSpace c || c == 45 || c == 43 || c == 40 || c == 41

/-- Body of `/^[^\s@]+@[^\s@]+\.[^\s@]+$/`. -/
def emailRegex : Regex :=
  .seq (.plus (.cls isEmailAtom))
    (.seq (.cls (fun c => c == 64))
      (.seq (.plus (.cls isEmailAtom))
        (.seq (.cls (fun c => c == 46)) (.plus (.cls isEmailAtom)))))

/-- Body of `/^[\d\s\-\+\(\)]+$/`. -/
def phoneRegex : Regex :=
  .plus (.cls isPhoneChar)

/-- The pattern of the specification, in its own words: one or more non-space
non-`@` characters, `@`, one or more such characters, `.`, one or more such
characters. -/
def MatchesEmailPattern (s : JsString) : Prop :=
  ∃ a b c : JsString, s = a ++ 64 :: (b ++ 46 :: c) ∧
    a ≠ [] ∧ b ≠ [] ∧ c ≠ [] ∧
    (∀ x ∈ a, isEmailAtom x = true) ∧ (∀ x ∈ b, isEmailAtom x = true) ∧
    (∀ x ∈ c, isEmailAtom x = true)

/-- The phone alphabet of the specification: only digits, white space, `-`,
`+`, `(` and `)`. -/
def OnlyPhoneChars (s : JsString) : Prop :=
  ∀ x ∈ s, isPhoneChar x = true

/-! ## The contact form -/

/-- The elements selected by `input, textarea, select`, with what determines
their `type` and `tagName` properties. -/
inductive Control where
  | input (type : String) : Control
  | textarea : Control
  | select (multiple : Bool) : Control
  deriving DecidableEq

/-- The DOM property `tagName`. -/
def Control.tagName : Control → String
  | .input _ => "INPUT"
  | .textarea => "TEXTAREA"
  | .select _ => "SELECT"

/-- The DOM property `type`. -/
def Control.type : Control → String
  | .input t => t
  | .textarea => "textarea"
  | .select false => "select-one"
  | .select true => "select-multiple"

/-- A form control as `validateField` reads it: its identity and the
properties the function never writes. -/
structure Field where
  id : Nat
  control : Control
  required : Bool
  value : JsString
  deriving DecidableEq

/-- The DOM property `type` of a field. -/
def Field.type (f : Field) : String := f.control.type

/-- The DOM property `tagName` of a field. -/
def Field.tagName (f : Field) : String := f.control.tagName

/-- The element tree below the form: a list of sibling nodes in document
order. `field id` is a form control, `error owner text` a `span.error-message`
with its text (`owner` records which field's `showError` created it and is
never read by the code), `elem kids` any other element with its children.
These spans are taken to be the only elements of class `error-message`. -/
inductive Dom where
  | nil : Dom
  | field (id : Nat) (next : Dom) : Dom
  | error (owner : Nat) (text : String) (next : Dom) : Dom
  | elem (kids : Dom) (next : Dom) : Dom
  deriving DecidableEq

namespace Dom

/-- Concatenation of sibling lists: `appendChild` adds at the end. -/
def append : Dom → Dom → Dom
  | nil, e => e
  | field i next, e => field i (append next e)
  | error o t next, e => error o t (append next e)
  | elem kids next, e => elem kids (append next e)

/-- Is there a `.error-message` node among these nodes or their descendants? -/
def hasError : Dom → Bool
  | nil => false
  | field _ next => hasError next
  | error _ _ _ => true
  | elem kids next => hasError kids || hasError next

/-- What `querySelector('.error-message')` followed by `remove()` does to the
children of an element: the first such node in document order goes. -/
def removeFirstError : Dom → Dom
  | nil => nil
  | field i next => field i (removeFirstError next)
  | error _ _ next => next
  | elem kids next =>
    if hasError kids then elem (removeFirstError kids) next
    else elem kids (removeFirstError next)

/-- Is field `id` one of these sibling nodes? -/
def isChild (id : Nat) : Dom → Bool
  | nil => false
  | field i next => i == id || isChild id next
  | error _ _ next => isChild id next
  | elem _ next => isChild id next

/-- Is field `id` one of these nodes or of their descendants? -/
def contains (id : Nat) : Dom → Bool
  | nil => false
  | field i next => i == id || contains id next
  | error _ _ next => contains id next
  | elem kids next => contains id kids || contains id next

/-- Applies `g` to the children of the parent of field `id`, when that parent
is a proper descendant of the element whose children are given. -/
def atParentIn (id : Nat) (g : Dom → Dom) : Dom → Option Dom
  | nil => none
  | field i next => (atParentIn id g next).map (field i)
  | error o t next => (atParentIn id g next).map (error o t)
  | elem kids next =>
    match (if isChild id kids then some (g kids) else atParentIn id g kids) with
    | some kids1 => some (elem kids1 next)
    | none => (atParentIn id g next).map (elem kids)

/-- Applies `g` to the children of `field.parentElement`; `none` when the
field is not in the tree (`parentElement` is `null`). The argument is the
child list of the form element. -/
def atParent (id : Nat) (g : Dom → Dom) (d : Dom) : Option Dom :=
  if isChild id d then some (g d) else atParentIn id g d

/-- The children of the parent of field `id`, when that parent is a proper
descendant of the element whose children are given (the search of
`atParentIn`). -/
def parentIn (id : Nat) : Dom → Option Dom
  | nil => none
  | field _ next => parentIn id next
  | error _ _ next => parentIn id next
  | elem kids next =>
    if isChild id kids then some kids
    else
      match parentIn id kids with
      | some k => some k
      | none => parentIn id next

/-- The children of `field.parentElement`, `none` when the field is not in
the tree. The argument is the child list of the form element. -/
def parent (id : Nat) (d : Dom) : Option Dom :=
  if isChild id d then some d else parentIn id d

/-- All `.error-message` nodes in document order, as (owner, text). -/
def errors : Dom → List (Nat × String)
  | nil => []
  | field _ next => errors next
  | error o t next => (o, t) :: errors next
  | elem kids next => errors kids ++ errors next

/-- Number of error-message nodes created for field `id`. -/
def errorCount (id : Nat) (d : Dom) : Nat :=
  (d.errors.filter (fun e => e.1 == id)).length

end Dom

/-- The submit button of the form. -/
structure Button where
  textContent : String
  disabled : Bool
  deriving DecidableEq

/-- A pending `setTimeout` of `submitForm`: its delay and the button label
its callback restores. -/
structure Timer where
  delay : Nat
  originalText : String
  deriving DecidableEq

/-- What the contact form code reads and writes. `inputs` is the result of
`form.querySelectorAll('input, textarea, select')`, in document order;
`classList` and `borderColor` give the class list and the inline border colour
of each control; `dom` is the child list of the form element. `shown` is the
trace of `showError` calls (field, message), kept for stating what was shown;
the code never reads it. -/
structure FormState where
  inputs : List Field
  classList : Nat → List String
  borderColor : Nat → String
  dom : Dom
  shown : List (Nat × String)
  submitButton : Option Button
  timers : List Timer

/-- Pointwise update of a per-field property. -/
def setAt {α : Type} (f : Nat → α) (i : Nat) (v : α) : Nat → α :=
  fun j => if j = i then v else f j

/-- The method `classList.add`. -/
def classAdd (cs : List String) (c : String) : List String :=
  if cs.contains c then cs else cs ++ [c]

/-- The method `classList.remove`. -/
def classRemove (cs : List String) (c : String) : List String :=
  cs.filter (fun x => x != c)

/-- `ContactForm.removeError`. -/
def removeError (st : FormState) (field : Field) : Option FormState :=
  let st1 := { st with
    classList := setAt st.classList field.id (classRemove (st.classList field.id) "error"),
    borderColor := setAt st.borderColor field.id "" }
  (st1.dom.atParent field.id Dom.removeFirstError).map fun d => { st1 with dom := d }

/-- `ContactForm.showError`. -/
def showError (st : FormState) (field : Field) (message : String) : Option FormState :=
  let st1 := { st with
    classList := setAt st.classList field.id (classAdd (st.classList field.id) "error"),
    borderColor := setAt st.borderColor field.id "#dc3545",
    shown := st.shown ++ [(field.id, message)] }
  (st1.dom.atParent field.id
    (fun kids => kids.append (.error field.id message .nil))).map fun d => { st1 with dom := d }

/-- The rule chain of `validateField` (lines 283 to 308): the pair
`(isValid, errorMessage)` it computes from the trimmed value. -/
def checkField (field : Field) : Bool × String :=
  let value := trim field.value
  let fieldType := field.type
  if field.required && value.isEmpty then
    (false, "This field is required")
  else if fieldType == "email" && !value.isEmpty then
    if !emailRegex.test value then (false, "Please enter a valid email address")
    else (true, "")
  else if fieldType == "tel" && !value.isEmpty then
    if !phoneRegex.test value || decide (value.length < 10) then
      (false, "Please enter a valid phone number")
    else (true, "")
  else if field.tagName == "SELECT" && (value.isEmpty || value == []) then
    (false, "Please select an option")
  else (true, "")

/-- `ContactForm.validateField`: the result and the state it leaves. -/
def validateField (st : FormState) (field : Field) : Option (Bool × FormState) :=
  match removeError st field with
  | none => none
  | some st1 =>
    let (isValid, errorMessage) := checkField field
    if !isValid then (showError st1 field errorMessage).map fun st2 => (isValid, st2)
    else some (isValid, st1)

/-- The `forEach` of `validateForm` with its accumulator `isValid`. -/
def validateEach : List Field → Bool → FormState → Option (Bool × FormState)
  | [], isValid, st => some (isValid, st)
  | input :: rest, isValid, st =>
    match validateField st input with
    | none => none
    | some (ok, st1) => validateEach rest (if !ok then false else isValid) st1

/-- `ContactForm.validateForm`. -/
def validateForm (st : FormState) : Option (Bool × FormState) :=
  validateEach (st.inputs.filter (fun input => input.required)) true st

/-- `ContactForm.submitForm` up to the `setTimeout` call. -/
def submitForm (st : FormState) : Option FormState :=
  match st.submitButton with
  | none => none
  | some submitButton =>
    some { st with
      submitButton := some { textContent := "Sending...", disabled := true },
      timers := st.timers ++ [{ delay := 1500, originalText := submitButton.textContent }] }

/-- The `submit` listener installed by `ContactForm.init`. -/
def onSubmit (st : FormState) : Option FormState :=
  match validateForm st with
  | none => none
  | some (ok, st1) => if ok then submitForm st1 else some st1

/-- A form before any validation: no error class, no inline border colour,
no error-message node, an enabled submit button, no pending timer. -/
def freshForm (inputs : List Field) (dom : Dom) : FormState :=
  { inputs := inputs,
    classList := fun _ => [],
    borderColor := fun _ => "",
    dom := dom,
    shown := [],
    submitButton := some { textContent := "Send Message", disabled := false },
    timers := [] }

/-- A required text input left empty. -/
def nameEmpty : Field :=
  { id := 1, control := .input "text", required := true, value := [] }

/-- The same input after the user typed a name. -/
def nameFilled : Field :=
  { id := 1, control := .input "text", required := true, value := utf16 "Ada" }

/-- An optional phone input holding a well-formed number. -/
def phoneOk : Field :=
  { id := 2, control := .input "tel", required := false, value := utf16 "+1 (555) 123-4567" }

/-- A required message area left empty. -/
def messageEmpty : Field :=
  { id := 3, control := .textarea, required := true, value := [] }

/-- An optional email input holding text that is no address. -/
def emailBad : Field :=
  { id := 1, control := .input "email", required := false, value := utf16 "abc" }

/-- The same input after the user emptied it. -/
def emailBlank : Field :=
  { id := 1, control := .input "email", required := false, value := [] }

/-- A required email input holding an address after a no-break space
(U+00A0), which the value sanitisation of email inputs leaves in place. -/
def emailNbsp : Field :=
  { id := 1, control := .input "email", required := true,
    value := 160 :: utf16 "ada@example.org" }

/-- A form whose email input sits in a wrapper of its own, next to the
message node of an earlier failed pass. -/
def emailWrapped : FormState :=
  freshForm [emailNbsp] (.elem (.field 1 (.error 1 "This field is required" .nil)) .nil)

/-- An optional email input directly in the form, followed by a wrapper `div`
holding a required text area. -/
def emailNestedForm : FormState :=
  freshForm [emailBad, messageEmpty] (.field 1 (.elem (.field 3 .nil) .nil))

/-- Two controls that are children of the same element (here the form). -/
def sharedParentForm : FormState :=
  freshForm [nameEmpty, phoneOk] (.field 1 (.field 2 .nil))

/-- A control directly in the form, followed by a wrapper `div` holding
another control. -/
def nestedForm : FormState :=
  freshForm [nameEmpty, messageEmpty] (.field 1 (.elem (.field 3 .nil) .nil))

/-- Runs `validateField` on the fields of a list, one after the other. -/
def validateSeq : List Field → FormState → Option FormState
  | [], st => some st
  | f :: fs, st =>
    match validateField st f with
    | none => none
    | some (_, st1) => validateSeq fs st1

/-! ## The statistics counter -/

/-- The values the variable `finalText` of the interval callback takes: a
number (the result of `Math.floor`) or a string. -/
inductive JsValue where
  | number (n : Int) : JsValue
  | string (s : JsString) : JsValue
  deriving DecidableEq

/-- Decimal digits of a natural number, as code units. -/
def natDigits (n : Nat) : JsString :=
  (Nat.toDigits 10 n).map Char.toNat

/-- `ToString` of an integral number. -/
def intToString (n : Int) : JsString :=
  if n < 0 then 45 :: natDigits n.natAbs else natDigits n.natAbs

/-- `ToString` of a value, as done by `+` with a string operand and by the
`textContent` setter. -/
def JsValue.toJsString : JsValue → JsString
  | .number n => intToString n
  | .string s => s

/-- `Number.prototype.toFixed(1)` of a non-negative number: the nearest
multiple of one tenth, the larger one on a tie. -/
def toFixed1 (x : ℚ) : JsString :=
  let n := (⌊x * 10 + 1 / 2⌋).toNat
  natDigits (n / 10) ++ 46 :: natDigits (n % 10)

/-- `finalText.replace(/[^0-9]/g, '')`: strings have the method, numbers do
not (`none` is the `TypeError`). -/
def JsValue.replaceNonDigits : JsValue → Option JsString
  | .number _ => none
  | .string s => some (s.filter isDigit)

/-- The value of a run of digits. -/
def digitsValue (ds : JsString) : Nat :=
  ds.foldl (fun acc d => 10 * acc + (d - 48)) 0

/-- `parseFloat` on a string made of digits and dots, which is all
`text.replace(/[^0-9.]/g, '')` leaves: the longest prefix `digits`,
`digits.digits` or `.digits`; `none` is `NaN`. -/
def parseFloat (s : JsString) : Option ℚ :=
  let whole := s.takeWhile isDigit
  let frac :=
    match s.dropWhile isDigit with
    | 46 :: rest => rest.takeWhile isDigit
    | _ => []
  if whole.isEmpty && frac.isEmpty then none
  else some ((digitsValue (whole ++ frac) : ℚ) / 10 ^ frac.length)

/-- The variables the interval callback of `animateCounter` closes over, the
text of the element and whether the interval timer is still set. -/
structure Counter where
  text : JsString
  hasPlus : Bool
  hasDollar : Bool
  hasPercent : Bool
  hasSlash : Bool
  number : ℚ
  increment : ℚ
  current : ℚ
  step : Nat
  textContent : JsString
  timerSet : Bool

/-- `StatsCounter.animateCounter` up to `setInterval`; `none` is the early
return on `isNaN(number)`. -/
def animateCounter (textContent : JsString) : Option Counter :=
  let text := textContent
  match parseFloat (text.filter fun c => isDigit c || c == 46) with
  | none => none
  | some number =>
    some { text := text,
           hasPlus := text.contains 43,
           hasDollar := text.contains 36,
           hasPercent := text.contains 37,
           hasSlash := text.contains 47,
           number := number,
           increment := number / 60,
           current := 0,
           step := 0,
           textContent := textContent,
           timerSet := true }

/-- One run of the interval callback: the state it leaves and whether it ran
to its end (`false`: it threw, the statements after the throw did not run). -/
def tick (c : Counter) : Counter × Bool :=
  let current := c.current + c.increment
  let step := c.step + 1
  let displayValue : JsValue :=
    if c.number ≥ 1000000000 then .string (toFixed1 (current / 1000000000) ++ utf16 "B")
    else if c.number ≥ 1000000 then .string (toFixed1 (current / 1000000) ++ utf16 "M")
    else if c.number ≥ 1000 then .string (toFixed1 (current / 1000) ++ utf16 "K")
    else .number ⌊current⌋
  let finalText := displayValue
  let finalText :=
    if c.hasDollar then JsValue.string (utf16 "$" ++ finalText.toJsString) else finalText
  let finalText :=
    if c.hasPlus then JsValue.string (finalText.toJsString ++ utf16 "+") else finalText
  let finalText :=
    if c.hasPercent then JsValue.string (finalText.toJsString ++ utf16 "%") else finalText
  let replaced : Option JsValue :=
    if c.hasSlash then finalText.replaceNonDigits.map fun s => JsValue.string (s ++ utf16 "/7")
    else some finalText
  match replaced with
  | none => ({ c with current := current, step := step }, false)
  | some finalText =>
    let c1 := { c with current := current, step := step, textContent := finalText.toJsString }
    if step ≥ 60 then ({ c1 with timerSet := false, textContent := c.text }, true)
    else (c1, true)

/-- The interval timer fires once: the callback runs when the timer is set. -/
def fire (c : Counter) : Counter :=
  if c.timerSet then (tick c).1 else c

/-- The interval timer fires `n` times. -/
def fireTimes : Nat → Counter → Counter
  | 0, c => c
  | n + 1, c => fireTimes n (fire c)

/-! ## The mobile menu -/

/-- What `setupMobileMenu` reads and writes: the `active` class of the
hamburger and of the nav menu, and `document.body.style.overflow`. -/
structure MenuState where
  hamburgerActive : Bool
  navMenuActive : Bool
  bodyOverflow : String
  deriving DecidableEq

/-- The `click` listener of the hamburger. -/
def hamburgerListener (s : MenuState) : MenuState :=
  let hamburgerActive := !s.hamburgerActive
  let navMenuActive := !s.navMenuActive
  { hamburgerActive := hamburgerActive,
    navMenuActive := navMenuActive,
    bodyOverflow := if navMenuActive then "hidden" else "" }

/-- The `click` listener of each nav link. -/
def navLinkListener (_ : MenuState) : MenuState :=
  { hamburgerActive := false, navMenuActive := false, bodyOverflow := "" }

/-- The `click` listener of the document; `insideNavbar` is whether
`e.target.closest('.navbar')` found an element. -/
def documentListener (insideNavbar : Bool) (s : MenuState) : MenuState :=
  if !insideNavbar && s.navMenuActive then
    { hamburgerActive := false, navMenuActive := false, bodyOverflow := "" }
  else s

/-- Where a click lands. -/
inductive ClickTarget where
  | hamburger : ClickTarget
  | navLink : ClickTarget
  | other : ClickTarget
  deriving DecidableEq

/-- A click event: its target and whether the target lies inside `.navbar`. -/
structure Click where
  target : ClickTarget
  insideNavbar : Bool
  deriving DecidableEq

/-- Dispatch of one click: the listener of the target runs, then the event
bubbles to the document listener. -/
def click (s : MenuState) (e : Click) : MenuState :=
  documentListener e.insideNavbar
    (match e.target with
     | .hamburger => hamburgerListener s
     | .navLink => navLinkListener s
     | .other => s)

/-- A sequence of clicks. -/
def clicks (s : MenuState) (es : List Click) : MenuState :=
  es.foldl click s

/-- The two `active` flags agree and the scroll lock follows them. -/
def MenuInv (s : MenuState) : Prop :=
  s.hamburgerActive = s.navMenuActive ∧ (s.bodyOverflow = "hidden" ↔ s.navMenuActive = true)

/-! ## The active navigation link -/

/-- A `section[id]` element: its id and its geometry. -/
structure Section where
  id : String
  offsetTop : Int
  offsetHeight : Int
  deriving DecidableEq

/-- A link of the nav menu: its `href` attribute (`none` when absent) and
whether it carries the class `active`. -/
structure NavLink where
  href : Option String
  active : Bool
  deriving DecidableEq

/-- The body of `this.navLinks.forEach` for one link and a matching section. -/
def markLink (sectionId : String) (link : NavLink) : NavLink :=
  let link1 := { link with active := false }
  if link.href == some ("#" ++ sectionId) then { link1 with active := true } else link1

/-- The throttled scroll handler of `setupActiveLink`. -/
def activeLinkHandler (sections : List Section) (pageYOffset : ℚ) (links : List NavLink) :
    List NavLink :=
  let scrollPosition := pageYOffset + 200
  sections.foldl
    (fun links sect =>
      let sectionTop := sect.offsetTop
      let sectionHeight := sect.offsetHeight
      let sectionId := sect.id
      if scrollPosition ≥ sectionTop ∧ scrollPosition < sectionTop + sectionHeight then
        links.map (markLink sectionId)
      else links)
    links

/-- Number of links carrying the class `active`. -/
def activeCount (links : List NavLink) : Nat :=
  (links.filter fun link => link.active).length

/-- The condition of the specification for one section:
`sectionTop <= scrollY + 200 < sectionTop + sectionHeight`. -/
def sectionInView (pageYOffset : ℚ) (sect : Section) : Bool :=
  decide ((sect.offsetTop : ℚ) ≤ pageYOffset + 200 ∧
    pageYOffset + 200 < (sect.offsetTop : ℚ) + (sect.offsetHeight : ℚ))

/-- What the specification gives a link when `sectionId` is the id of the
section that wins: the class `active` exactly when the `href` is `#` followed
by that id. -/
def flagFor (sectionId : String) (link : NavLink) : NavLink :=
  { href := link.href, active := decide (link.href = some ("#" ++ sectionId)) }

/-! ## Timers, throttle and debounce

Time is a number of milliseconds. A timer set by `setTimeout(f, d)` at time
`t` is taken to run at time `t + d`, before any event dispatched at that time
or later; timers set with the same delay run in the order they were set. -/

/-- State of one function returned by `throttle(func, limit)`: the variable
`inThrottle` (`undefined` counts as false), the times at which the pending
callbacks `() => inThrottle = false` are due, and what `func` acts on. -/
structure Throttled (σ : Type) where
  inThrottle : Bool
  pending : List Nat
  target : σ
  deriving DecidableEq

/-- The event loop up to time `now`: every pending timer that is due runs its
callback `inThrottle = false`. -/
def Throttled.elapse {σ : Type} (now : Nat) (s : Throttled σ) : Throttled σ :=
  { inThrottle := if s.pending.any (fun due => decide (due ≤ now)) then false else s.inThrottle,
    pending := s.pending.filter (fun due => decide (now < due)),
    target := s.target }

/-- The function returned by `throttle(func, limit)`, called at time `now`. -/
def throttle {α σ : Type} (func : α → σ → σ) (limit : Nat) (now : Nat) (args : α)
    (s : Throttled σ) : Throttled σ :=
  if !s.inThrottle then
    { inThrottle := true,
      pending := s.pending ++ [now + limit],
      target := func args s.target }
  else s

/-- The scroll handler of `BackToTop.init`, on the class list of the button. -/
def backToTopHandler (pageYOffset : ℚ) (classList : List String) : List String :=
  if pageYOffset > 500 then classAdd classList "visible" else classRemove classList "visible"

/-- `BackToTop.init` for a button with the given class list: the throttled
listener is fresh. -/
def backToTopInit (classList : List String) : Throttled (List String) :=
  { inThrottle := false, pending := [], target := classList }

/-- A scroll event dispatched at time `now` with the page at `pageYOffset`:
the timers that are due have run, then the throttled listener (limit 200) is
called. -/
def backToTopScroll (now : Nat) (pageYOffset : ℚ) (s : Throttled (List String)) :
    Throttled (List String) :=
  throttle backToTopHandler 200 now pageYOffset (s.elapse now)

/-- A pending timer of a debounced function: its id, the time it is due and
the arguments its callback `later` closes over. -/
structure Later (α : Type) where
  id : Nat
  due : Nat
  args : α
  deriving DecidableEq

/-- State of one function returned by `debounce(func, wait)`: the variable
`timeout` (`none` is `undefined`), the id the next `setTimeout` returns, the
pending timers in the order they were set, and the trace of the calls of
`func` (time and arguments). -/
structure Debounced (α : Type) where
  timeout : Option Nat
  nextId : Nat
  pending : List (Later α)
  invoked : List (Nat × α)
  deriving DecidableEq

/-- `clearTimeout(id)` on the list of pending timers. -/
def clearTimeout {α : Type} (id : Option Nat) (pending : List (Later α)) : List (Later α) :=
  match id with
  | none => pending
  | some i => pending.filter (fun l => l.id != i)

/-- A debounced function nobody has called yet. -/
def Debounced.fresh {α : Type} : Debounced α :=
  { timeout := none, nextId := 1, pending := [], invoked := [] }

/-- The function `executedFunction` returned by `debounce(func, wait)`, called
at time `now`. -/
def debounce {α : Type} (wait : Nat) (now : Nat) (args : α) (s : Debounced α) : Debounced α :=
  let cleared := clearTimeout s.timeout s.pending
  { timeout := some s.nextId,
    nextId := s.nextId + 1,
    pending := cleared ++ [{ id := s.nextId, due := now + wait, args := args }],
    invoked := s.invoked }

/-- The callback `later` of the timer `l`: `clearTimeout(timeout)`, then
`func(...args)`. -/
def later {α : Type} (l : Later α) (s : Debounced α) : Debounced α :=
  { s with
    pending := clearTimeout s.timeout s.pending,
    invoked := s.invoked ++ [(l.due, l.args)] }

/-- The timer `l` runs if it has not been cleared: it leaves the list of
pending timers and its callback runs. -/
def runTimer {α : Type} (s : Debounced α) (l : Later α) : Debounced α :=
  if s.pending.any (fun p => p.id == l.id) then
    later l { s with pending := s.pending.filter (fun p => p.id != l.id) }
  else s

/-- The event loop up to time `now`: the pending timers that are due run. -/
def Debounced.elapse {α : Type} (now : Nat) (s : Debounced α) : Debounced α :=
  (s.pending.filter (fun l => decide (l.due ≤ now))).foldl runTimer s

/-- Calls of the debounced function at the given times with the given
arguments, the event loop running up to each call. -/
def debounceCalls {α : Type} (wait : Nat) : List (Nat × α) → Debounced α → Debounced α
  | [], s => s
  | (now, args) :: rest, s => debounceCalls wait rest (debounce wait now args (s.elapse now))

/-- A burst: each call arrives no earlier than the previous one and less than
`wait` ms after it. -/
def isBurst {α : Type} (wait : Nat) : Nat × α → List (Nat × α) → Bool
  | _, [] => true
  | p, q :: rest => decide (p.1 ≤ q.1) && decide (q.1 < p.1 + wait) && isBurst wait q rest

/-! ## Correctness of the matcher -/

namespace Regex

theorem matches_none (w : JsString) : ¬ Matches none w := by
  intro h; cases h

theorem matches_eps (w : JsString) : Matches eps w ↔ w = [] := by
  constructor
  · intro h; cases h; rfl
  · rintro rfl; exact Matches.eps

theorem matches_cls (p : Nat → Bool) (w : JsString) :
    Matches (cls p) w ↔ ∃ c, w = [c] ∧ p c = true := by
  constructor
  · intro h; cases h with
    | cls _ c hc => exact ⟨c, rfl, hc⟩
  · rintro ⟨c, rfl, hc⟩; exact Matches.cls p c hc

theorem matches_seq (r s : Regex) (w : JsString) :
    Matches (seq r s) w ↔ ∃ u v, w = u ++ v ∧ Matches r u ∧ Matches s v := by
  constructor
  · intro h; cases h with
    | seq hu hv => exact ⟨_, _, rfl, hu, hv⟩
  · rintro ⟨u, v, rfl, hu, hv⟩; exact Matches.seq hu hv

theorem matches_alt (r s : Regex) (w : JsString) :
    Matches (alt r s) w ↔ Matches r w ∨ Matches s w := by
  constructor
  · intro h; cases h with
    | altL h => exact Or.inl h
    | altR h => exact Or.inr h
  · rintro (h | h)
    · exact Matches.altL h
    · exact Matches.altR h

/-- A non-empty word of an iteration starts with a non-empty word of the body. -/
theorem matches_star (r : Regex) (w : JsString) :
    Matches (star r) w ↔
      w = [] ∨ ∃ u v, u ≠ [] ∧ w = u ++ v ∧ Matches r u ∧ Matches (star r) v := by
  constructor
  · intro h
    generalize hq : star r = q at h
    induction h with
    | eps => cases hq
    | cls _ _ _ => cases hq
    | seq _ _ _ _ => cases hq
    | altL _ _ => cases hq
    | altR _ _ => cases hq
    | starNil => exact Or.inl rfl
    | @starCons r1 u v hu hv _ ihv =>
      cases hq
      cases u with
      | nil => simpa using ihv rfl
      | cons a u1 => exact Or.inr ⟨a :: u1, v, by simp, rfl, hu, hv⟩
  · rintro (rfl | ⟨u, v, -, rfl, hu, hv⟩)
    · exact Matches.starNil
    · exact Matches.starCons hu hv

theorem nullable_iff (r : Regex) : nullable r = true ↔ Matches r [] := by
  induction r with
  | none => simp [nullable, matches_none]
  | eps => simp [nullable, matches_eps]
  | cls p => simp [nullable, matches_cls]
  | seq r s ihr ihs =>
    simp only [nullable, Bool.and_eq_true, ihr, ihs, matches_seq]
    constructor
    · rintro ⟨hr, hs⟩; exact ⟨[], [], rfl, hr, hs⟩
    · rintro ⟨u, v, huv, hr, hs⟩
      have h := List.append_eq_nil.mp huv.symm
      rw [h.1] at hr; rw [h.2] at hs
      exact ⟨hr, hs⟩
  | alt r s ihr ihs => simp [nullable, ihr, ihs, matches_alt]
  | star r _ => simp [nullable, Matches.starNil]

theorem deriv_iff (r : Regex) (c : Nat) (w : JsString) :
    Matches (deriv r c) w ↔ Matches r (c :: w) := by
  induction r generalizing w with
  | none => simp [deriv, matches_none]
  | eps => simp [deriv, matches_none, matches_eps]
  | cls p =>
    by_cases hp : p c = true
    · simp only [deriv, hp, if_true, matches_eps, matches_cls]
      constructor
      · rintro rfl; exact ⟨c, rfl, hp⟩
      · rintro ⟨d, hd, _⟩
        simp only [List.cons.injEq] at hd
        exact hd.2
    · simp only [deriv, hp, matches_cls]
      constructor
      · intro h; exact absurd h (matches_none w)
      · rintro ⟨d, hd, hd2⟩
        simp only [List.cons.injEq] at hd
        rw [← hd.1] at hd2
        exact absurd hd2 hp
  | seq r s ihr ihs =>
    have key : Matches (seq r s) (c :: w) ↔
        Matches (seq (deriv r c) s) w ∨ (nullable r = true ∧ Matches (deriv s c) w) := by
      simp only [matches_seq, ihr, ihs, nullable_iff]
      constructor
      · rintro ⟨u, v, huv, hu, hv⟩
        cases u with
        | nil =>
          simp only [List.nil_append] at huv
          subst huv
          exact Or.inr ⟨hu, hv⟩
        | cons a u1 =>
          simp only [List.cons_append, List.cons.injEq] at huv
          obtain ⟨rfl, rfl⟩ := huv
          exact Or.inl ⟨u1, v, rfl, hu, hv⟩
      · rintro (⟨u, v, rfl, hu, hv⟩ | ⟨hn, hv⟩)
        · exact ⟨c :: u, v, rfl, hu, hv⟩
        · exact ⟨[], c :: w, rfl, hn, hv⟩
    rw [key]
    by_cases hn : nullable r = true
    · simp [deriv, hn, matches_alt]
    · simp [deriv, hn]
  | alt r s ihr ihs => simp [deriv, matches_alt, ihr, ihs]
  | star r ih =>
    simp only [deriv, matches_seq, ih]
    constructor
    · rintro ⟨u, v, rfl, hu, hv⟩
      exact Matches.starCons hu hv
    · intro h
      rcases (matches_star r (c :: w)).mp h with h0 | ⟨u, v, hne, huv, hu, hv⟩
      · cases h0
      · cases u with
        | nil => exact absurd rfl hne
        | cons a u1 =>
          simp only [List.cons_append, List.cons.injEq] at huv
          obtain ⟨rfl, rfl⟩ := huv
          exact ⟨u1, v, rfl, hu, hv⟩

/-- The derivative matcher decides the language of the pattern. -/
theorem test_iff (r : Regex) (w : JsString) : test r w = true ↔ Matches r w := by
  induction w generalizing r with
  | nil => simp [test, nullable_iff]
  | cons c cs ih => simp [test, ih, deriv_iff]

theorem matches_star_cls (p : Nat → Bool) (w : JsString) :
    Matches (star (cls p)) w ↔ ∀ x ∈ w, p x = true := by
  induction w with
  | nil => simp [Matches.starNil]
  | cons c cs ih =>
    rw [← deriv_iff]
    simp only [deriv, matches_seq, List.mem_cons, forall_eq_or_imp, ← ih]
    by_cases hp : p c = true
    · simp only [hp, if_true, matches_eps, true_and]
      constructor
      · rintro ⟨u, v, rfl, rfl, hv⟩; exact hv
      · intro h; exact ⟨[], cs, rfl, rfl, h⟩
    · simp [hp, matches_none]

theorem matches_plus_cls (p : Nat → Bool) (w : JsString) :
    Matches (plus (cls p)) w ↔ w ≠ [] ∧ ∀ x ∈ w, p x = true := by
  simp only [plus, matches_seq, matches_cls, matches_star_cls]
  constructor
  · rintro ⟨u, v, rfl, ⟨c, rfl, hc⟩, hv⟩
    refine ⟨by simp, ?_⟩
    intro x hx
    simp only [List.singleton_append, List.mem_cons] at hx
    rcases hx with rfl | hx
    · exact hc
    · exact hv x hx
  · rintro ⟨hne, hall⟩
    cases w with
    | nil => exact absurd rfl hne
    | cons c cs =>
      exact ⟨[c], cs, rfl, ⟨c, rfl, hall c (by simp)⟩, fun x hx => hall x (by simp [hx])⟩

end Regex

/-- The email pattern of the source accepts exactly the strings the
specification describes. -/
theorem emailRegex_test_iff (s : JsString) :
    emailRegex.test s = true ↔ MatchesEmailPattern s := by
  rw [Regex.test_iff]
  unfold emailRegex MatchesEmailPattern
  simp only [Regex.matches_seq, Regex.matches_plus_cls, Regex.matches_cls, beq_iff_eq]
  constructor
  · rintro ⟨a, _, rfl, ⟨ha, ha2⟩, _, _, rfl, ⟨_, rfl, rfl⟩, b, _, rfl, ⟨hb, hb2⟩, _, c, rfl,
      ⟨_, rfl, rfl⟩, hc, hc2⟩
    exact ⟨a, b, c, by simp, ha, hb, hc, ha2, hb2, hc2⟩
  · rintro ⟨a, b, c, rfl, ha, hb, hc, ha2, hb2, hc2⟩
    exact ⟨a, _, rfl, ⟨ha, ha2⟩, [64], _, rfl, ⟨64, rfl, rfl⟩, b, _, rfl, ⟨hb, hb2⟩, [46], c, rfl,
      ⟨46, rfl, rfl⟩, hc, hc2⟩

/-- The phone pattern of the source accepts exactly the non-empty strings over
the phone alphabet. -/
theorem phoneRegex_test_iff (s : JsString) :
    phoneRegex.test s = true ↔ s ≠ [] ∧ OnlyPhoneChars s := by
  rw [Regex.test_iff]
  unfold phoneRegex OnlyPhoneChars
  exact Regex.matches_plus_cls _ _

/-! ## The element tree -/

namespace Dom

theorem errors_append (d e : Dom) : (d.append e).errors = d.errors ++ e.errors := by
  induction d with
  | nil => simp [append, errors]
  | field i next ih => simp [append, errors, ih]
  | error o t next ih => simp [append, errors, ih]
  | elem kids next _ ih => simp [append, errors, ih]

theorem contains_append_error (j o : Nat) (t : String) (d : Dom) :
    (d.append (error o t nil)).contains j = d.contains j := by
  induction d with
  | nil => simp [append, contains]
  | field i next ih => simp [append, contains, ih]
  | error o1 t1 next ih => simp [append, contains, ih]
  | elem kids next _ ih => simp [append, contains, ih]

theorem contains_removeFirstError (j : Nat) (d : Dom) :
    d.removeFirstError.contains j = d.contains j := by
  induction d with
  | nil => rfl
  | field i next ih => simp [removeFirstError, contains, ih]
  | error o t next _ => simp [removeFirstError, contains]
  | elem kids next ihk ihn =>
    by_cases h : hasError kids = true
    · simp [removeFirstError, contains, h, ihk]
    · simp [removeFirstError, contains, h, ihn]

theorem errors_removeFirstError (d : Dom) : d.removeFirstError.errors.Sublist d.errors := by
  induction d with
  | nil => simp [removeFirstError]
  | field i next ih => simpa [removeFirstError, errors] using ih
  | error o t next _ => simp [removeFirstError, errors]
  | elem kids next ihk ihn =>
    by_cases h : hasError kids = true
    · simp only [removeFirstError, h, if_true, errors]
      exact List.Sublist.append ihk (List.Sublist.refl _)
    · simp only [removeFirstError, h, errors]
      exact List.Sublist.append (List.Sublist.refl _) ihn

theorem isChild_contains (id : Nat) (d : Dom) (h : d.isChild id = true) :
    d.contains id = true := by
  induction d with
  | nil => simp [isChild] at h
  | field i next ih =>
    simp only [isChild, Bool.or_eq_true] at h
    simp only [contains, Bool.or_eq_true]
    exact h.imp (fun x => x) ih
  | error o t next ih => exact ih (by simpa [isChild] using h)
  | elem kids next _ ih =>
    simp only [contains, Bool.or_eq_true]
    exact Or.inr (ih (by simpa [isChild] using h))

/-- A field of the tree that is not a child of the top element has its parent
further down, where `atParentIn` finds it. -/
theorem atParentIn_isSome (id : Nat) (g : Dom → Dom) (d : Dom)
    (hc : d.contains id = true) (hn : d.isChild id = false) :
    ∃ d1, atParentIn id g d = some d1 := by
  induction d with
  | nil => simp [contains] at hc
  | field i next ih =>
    simp only [isChild, Bool.or_eq_false_iff] at hn
    simp only [contains, hn.1, Bool.false_or] at hc
    obtain ⟨d1, h1⟩ := ih hc hn.2
    exact ⟨field i d1, by simp [atParentIn, h1]⟩
  | error o t next ih =>
    obtain ⟨d1, h1⟩ := ih (by simpa [contains] using hc) (by simpa [isChild] using hn)
    exact ⟨error o t d1, by simp [atParentIn, h1]⟩
  | elem kids next ihk ihn =>
    simp only [isChild] at hn
    simp only [contains, Bool.or_eq_true] at hc
    cases hk : isChild id kids with
    | true => exact ⟨elem (g kids) next, by simp [atParentIn, hk]⟩
    | false =>
      cases hin : atParentIn id g kids with
      | some k1 => exact ⟨elem k1 next, by simp [atParentIn, hk, hin]⟩
      | none =>
        rcases hc with hc | hc
        · obtain ⟨k1, hk1⟩ := ihk hc hk
          rw [hk1] at hin; cases hin
        · obtain ⟨d1, h1⟩ := ihn hc hn
          exact ⟨elem kids d1, by simp [atParentIn, hk, hin, h1]⟩

/-- `field.parentElement` exists for every field of the tree. -/
theorem atParent_isSome (id : Nat) (g : Dom → Dom) (d : Dom) (hc : d.contains id = true) :
    ∃ d1, atParent id g d = some d1 := by
  unfold atParent
  by_cases h : isChild id d = true
  · exact ⟨g d, by simp [h]⟩
  · simp only [h]
    exact atParentIn_isSome id g d hc (by simpa using h)

/-- A property of sibling lists that `g` establishes or keeps, and that an
enclosing list inherits from any of its parts, holds after `atParentIn`. -/
theorem atParentIn_rel (id : Nat) (g : Dom → Dom) (R : Dom → Dom → Prop)
    (hg : ∀ k, R k (g k))
    (hfield : ∀ i a b, R a b → R (field i a) (field i b))
    (herror : ∀ o t a b, R a b → R (error o t a) (error o t b))
    (hkids : ∀ a b n, R a b → R (elem a n) (elem b n))
    (hnext : ∀ k a b, R a b → R (elem k a) (elem k b))
    (d d1 : Dom) (h : atParentIn id g d = some d1) : R d d1 := by
  induction d generalizing d1 with
  | nil => simp [atParentIn] at h
  | field i next ih =>
    simp only [atParentIn, Option.map_eq_some'] at h
    obtain ⟨n1, hn1, rfl⟩ := h
    exact hfield i _ _ (ih n1 hn1)
  | error o t next ih =>
    simp only [atParentIn, Option.map_eq_some'] at h
    obtain ⟨n1, hn1, rfl⟩ := h
    exact herror o t _ _ (ih n1 hn1)
  | elem kids next ihk ihn =>
    cases hk : isChild id kids with
    | true =>
      simp only [atParentIn, hk, if_true, Option.some.injEq] at h
      subst h
      exact hkids _ _ _ (hg kids)
    | false =>
      cases hin : atParentIn id g kids with
      | some k1 =>
        simp [atParentIn, hk, hin] at h
        subst h
        exact hkids _ _ _ (ihk k1 hin)
      | none =>
        simp [atParentIn, hk, hin] at h
        obtain ⟨n1, hn1, rfl⟩ := h
        exact hnext _ _ _ (ihn n1 hn1)

theorem atParent_rel (id : Nat) (g : Dom → Dom) (R : Dom → Dom → Prop)
    (hg : ∀ k, R k (g k))
    (hfield : ∀ i a b, R a b → R (field i a) (field i b))
    (herror : ∀ o t a b, R a b → R (error o t a) (error o t b))
    (hkids : ∀ a b n, R a b → R (elem a n) (elem b n))
    (hnext : ∀ k a b, R a b → R (elem k a) (elem k b))
    (d d1 : Dom) (h : atParent id g d = some d1) : R d d1 := by
  unfold atParent at h
  by_cases hc : isChild id d = true
  · simp only [hc, if_true, Option.some.injEq] at h
    subst h; exact hg d
  · simp only [hc] at h
    exact atParentIn_rel id g R hg hfield herror hkids hnext d d1 h

/-- Changing the children of a parent by `g` keeps the fields of the tree
when `g` keeps those of a sibling list. -/
theorem atParent_contains (id : Nat) (g : Dom → Dom) (j : Nat)
    (hg : ∀ k, (g k).contains j = k.contains j) (d d1 : Dom)
    (h : atParent id g d = some d1) : d1.contains j = d.contains j := by
  refine atParent_rel id g (fun a b => b.contains j = a.contains j) hg ?_ ?_ ?_ ?_ d d1 h
  · intro i a b hab; simp [contains, hab]
  · intro o t a b hab; simp [contains, hab]
  · intro a b n hab; simp [contains, hab]
  · intro k a b hab; simp [contains, hab]

/-- Removing inside a parent only removes error-message nodes of the tree. -/
theorem atParent_errors_sublist (id : Nat) (g : Dom → Dom)
    (hg : ∀ k, (g k).errors.Sublist k.errors) (d d1 : Dom)
    (h : atParent id g d = some d1) : d1.errors.Sublist d.errors := by
  refine atParent_rel id g (fun a b => b.errors.Sublist a.errors) hg ?_ ?_ ?_ ?_ d d1 h
  · intro i a b hab; simpa [errors] using hab
  · intro o t a b hab; simpa [errors] using hab
  · intro a b n hab; exact List.Sublist.append hab (List.Sublist.refl _)
  · intro k a b hab; exact List.Sublist.append (List.Sublist.refl _) hab

/-- A node that `g` puts among the children of the parent is in the tree. -/
theorem atParent_errors_mem (id : Nat) (g : Dom → Dom) (e : Nat × String)
    (hg : ∀ k, e ∈ (g k).errors) (d d1 : Dom)
    (h : atParent id g d = some d1) : e ∈ d1.errors := by
  refine atParent_rel id g (fun _ b => e ∈ b.errors) hg ?_ ?_ ?_ ?_ d d1 h
  · intro i a b hab; simpa [errors] using hab
  · intro o t a b hab; simp [errors, hab]
  · intro a b n hab; simp [errors, hab]
  · intro k a b hab; simp [errors, hab]

theorem hasError_eq_false (d : Dom) (h : d.hasError = false) : d.errors = [] := by
  induction d with
  | nil => rfl
  | field i next ih => exact ih (by simpa [hasError] using h)
  | error o t next _ => simp [hasError] at h
  | elem kids next ihk ihn =>
    simp only [hasError, Bool.or_eq_false_iff] at h
    simp [errors, ihk h.1, ihn h.2]

theorem hasError_eq_true (d : Dom) (h : d.hasError = true) : d.errors ≠ [] := by
  induction d with
  | nil => simp [hasError] at h
  | field i next ih => exact ih (by simpa [hasError] using h)
  | error o t next _ => simp [errors]
  | elem kids next ihk ihn =>
    simp only [hasError, Bool.or_eq_true] at h
    simp only [errors, ne_eq, List.append_eq_nil, not_and]
    rcases h with h | h
    · intro hk; exact absurd hk (ihk h)
    · intro _; exact ihn h

/-- Removing the first error-message node in document order drops the head
of the list of error-message nodes. -/
theorem errors_removeFirstError_tail (d : Dom) :
    d.removeFirstError.errors = d.errors.tail := by
  induction d with
  | nil => rfl
  | field i next ih => simpa [removeFirstError, errors] using ih
  | error o t next _ => simp [removeFirstError, errors]
  | elem kids next ihk ihn =>
    cases h : hasError kids with
    | true =>
      have hne := hasError_eq_true kids h
      simp only [removeFirstError, h, if_true, errors, ihk]
      cases hk : kids.errors with
      | nil => exact absurd hk hne
      | cons e es => simp
    | false =>
      have hnil := hasError_eq_false kids h
      simp [removeFirstError, h, errors, ihn, hnil]

theorem isChild_removeFirstError (j : Nat) (d : Dom) :
    d.removeFirstError.isChild j = d.isChild j := by
  induction d with
  | nil => rfl
  | field i next ih => simp [removeFirstError, isChild, ih]
  | error o t next _ => simp [removeFirstError, isChild]
  | elem kids next _ ihn =>
    cases h : hasError kids with
    | true => simp [removeFirstError, h, isChild]
    | false => simp [removeFirstError, h, isChild, ihn]

/-- `atParentIn` leaves the controls among the given siblings as they are. -/
theorem atParentIn_isChild (id : Nat) (g : Dom → Dom) (j : Nat) (d d1 : Dom)
    (h : atParentIn id g d = some d1) : d1.isChild j = d.isChild j := by
  induction d generalizing d1 with
  | nil => simp [atParentIn] at h
  | field i next ih =>
    simp only [atParentIn, Option.map_eq_some'] at h
    obtain ⟨n1, hn1, rfl⟩ := h
    simp [isChild, ih n1 hn1]
  | error o t next ih =>
    simp only [atParentIn, Option.map_eq_some'] at h
    obtain ⟨n1, hn1, rfl⟩ := h
    simp [isChild, ih n1 hn1]
  | elem kids next _ ihn =>
    cases hk : isChild id kids with
    | true =>
      simp only [atParentIn, hk, if_true, Option.some.injEq] at h
      subst h; rfl
    | false =>
      cases hin : atParentIn id g kids with
      | some k1 =>
        simp [atParentIn, hk, hin] at h
        subst h; rfl
      | none =>
        simp [atParentIn, hk, hin] at h
        obtain ⟨n1, hn1, rfl⟩ := h
        simp [isChild, ihn n1 hn1]

/-- `atParentIn` fails exactly when the search for the parent fails. -/
theorem atParentIn_eq_none (id : Nat) (g : Dom → Dom) (d : Dom) :
    atParentIn id g d = none ↔ parentIn id d = none := by
  induction d with
  | nil => simp [atParentIn, parentIn]
  | field i next ih => simp [atParentIn, parentIn, ih]
  | error o t next ih => simp [atParentIn, parentIn, ih]
  | elem kids next ihk ihn =>
    cases hk : isChild id kids with
    | true => simp [atParentIn, parentIn, hk]
    | false =>
      cases hin : atParentIn id g kids with
      | some k1 =>
        cases hp : parentIn id kids with
        | none => rw [ihk.mpr hp] at hin; cases hin
        | some k => simp [atParentIn, parentIn, hk, hin, hp]
      | none =>
        have hp := ihk.mp hin
        simp [atParentIn, parentIn, hk, hin, hp, ihn]

/-- After `atParentIn` the parent of the field holds what `g` made of its
children, when `g` keeps the controls among them. -/
theorem parentIn_atParentIn (id : Nat) (g : Dom → Dom)
    (hg : ∀ k, (g k).isChild id = k.isChild id) (d d1 : Dom)
    (h : atParentIn id g d = some d1) : parentIn id d1 = (parentIn id d).map g := by
  induction d generalizing d1 with
  | nil => simp [atParentIn] at h
  | field i next ih =>
    simp only [atParentIn, Option.map_eq_some'] at h
    obtain ⟨n1, hn1, rfl⟩ := h
    simp [parentIn, ih n1 hn1]
  | error o t next ih =>
    simp only [atParentIn, Option.map_eq_some'] at h
    obtain ⟨n1, hn1, rfl⟩ := h
    simp [parentIn, ih n1 hn1]
  | elem kids next ihk ihn =>
    cases hk : isChild id kids with
    | true =>
      simp only [atParentIn, hk, if_true, Option.some.injEq] at h
      subst h
      simp [parentIn, hk, hg]
    | false =>
      cases hin : atParentIn id g kids with
      | some k1 =>
        simp [atParentIn, hk, hin] at h
        subst h
        have hk1 : isChild id k1 = false := by
          rw [atParentIn_isChild id g id kids k1 hin]; exact hk
        have hrec := ihk k1 hin
        cases hp : parentIn id kids with
        | none => rw [(atParentIn_eq_none id g kids).mpr hp] at hin; cases hin
        | some k =>
          rw [hp] at hrec
          simp only [Option.map_some'] at hrec
          simp [parentIn, hk, hk1, hrec, hp]
      | none =>
        simp [atParentIn, hk, hin] at h
        obtain ⟨n1, hn1, rfl⟩ := h
        have hp := (atParentIn_eq_none id g kids).mp hin
        simp [parentIn, hk, hp, ihn n1 hn1]

/-- After `atParent` the parent of the field holds what `g` made of its
children, when `g` keeps the controls among them. -/
theorem parent_atParent (id : Nat) (g : Dom → Dom)
    (hg : ∀ k, (g k).isChild id = k.isChild id) (d d1 : Dom)
    (h : atParent id g d = some d1) : parent id d1 = (parent id d).map g := by
  unfold atParent at h
  unfold parent
  cases hc : isChild id d with
  | true =>
    simp only [hc, if_true, Option.some.injEq] at h
    subst h
    simp [hg, hc]
  | false =>
    simp only [hc] at h
    have h1 : isChild id d1 = false := by
      rw [atParentIn_isChild id g id d d1 h]; exact hc
    simp [h1, parentIn_atParentIn id g hg d d1 h]

end Dom

/-! ## One validation pass -/

theorem mem_classAdd (cs : List String) (c : String) : c ∈ classAdd cs c := by
  unfold classAdd
  by_cases h : cs.contains c = true
  · rw [if_pos h]; simpa using h
  · rw [if_neg h]; simp

theorem not_mem_classRemove (cs : List String) (c : String) : c ∉ classRemove cs c := by
  simp [classRemove]

/-- `removeError` on a field of the tree: it returns, clears the class and
the border of that field only, and can only remove error-message nodes. -/
theorem removeError_spec (st : FormState) (f : Field) (hc : st.dom.contains f.id = true) :
    ∃ st1, removeError st f = some st1 ∧
      st1.inputs = st.inputs ∧ st1.submitButton = st.submitButton ∧ st1.timers = st.timers ∧
      st1.shown = st.shown ∧
      (∀ j, st1.dom.contains j = st.dom.contains j) ∧
      (∀ j, j ≠ f.id → st1.classList j = st.classList j ∧ st1.borderColor j = st.borderColor j) ∧
      "error" ∉ st1.classList f.id ∧ st1.borderColor f.id = "" ∧
      st1.dom.errors.Sublist st.dom.errors := by
  obtain ⟨d1, hd1⟩ := Dom.atParent_isSome f.id Dom.removeFirstError st.dom hc
  refine ⟨{ st with
      classList := setAt st.classList f.id (classRemove (st.classList f.id) "error"),
      borderColor := setAt st.borderColor f.id "",
      dom := d1 }, by simp [removeError, hd1], rfl, rfl, rfl, rfl, ?_, ?_, ?_, ?_, ?_⟩
  · intro j
    exact Dom.atParent_contains f.id _ j (Dom.contains_removeFirstError j) _ _ hd1
  · intro j hj
    simp [setAt, hj]
  · simp [setAt, not_mem_classRemove]
  · simp [setAt]
  · exact Dom.atParent_errors_sublist f.id _ Dom.errors_removeFirstError _ _ hd1

/-- `showError` on a field of the tree: it returns, marks that field only,
and its message node is in the tree afterwards. -/
theorem showError_spec (st : FormState) (f : Field) (message : String)
    (hc : st.dom.contains f.id = true) :
    ∃ st1, showError st f message = some st1 ∧
      st1.inputs = st.inputs ∧ st1.submitButton = st.submitButton ∧ st1.timers = st.timers ∧
      st1.shown = st.shown ++ [(f.id, message)] ∧
      (∀ j, st1.dom.contains j = st.dom.contains j) ∧
      (∀ j, j ≠ f.id → st1.classList j = st.classList j ∧ st1.borderColor j = st.borderColor j) ∧
      "error" ∈ st1.classList f.id ∧ st1.borderColor f.id = "#dc3545" ∧
      (f.id, message) ∈ st1.dom.errors := by
  obtain ⟨d1, hd1⟩ := Dom.atParent_isSome f.id
    (fun kids => kids.append (.error f.id message .nil)) st.dom hc
  refine ⟨{ st with
      classList := setAt st.classList f.id (classAdd (st.classList f.id) "error"),
      borderColor := setAt st.borderColor f.id "#dc3545",
      shown := st.shown ++ [(f.id, message)],
      dom := d1 }, by simp [showError, hd1], rfl, rfl, rfl, rfl, ?_, ?_, ?_, ?_, ?_⟩
  · intro j
    exact Dom.atParent_contains f.id _ j (Dom.contains_append_error j f.id message) _ _ hd1
  · intro j hj
    simp [setAt, hj]
  · simp [setAt, mem_classAdd]
  · simp [setAt]
  · exact Dom.atParent_errors_mem f.id _ _ (by simp [Dom.errors_append, Dom.errors]) _ _ hd1

/-- What one `validateField` call does for a field of the tree: it returns
the verdict of the rule chain; an invalid field is marked and gets its
message node, a valid field is unmarked and no node is added; no other field
changes class or border. -/
theorem validateField_spec (st : FormState) (f : Field) (hc : st.dom.contains f.id = true) :
    ∃ st1, validateField st f = some ((checkField f).1, st1) ∧
      st1.inputs = st.inputs ∧ st1.submitButton = st.submitButton ∧ st1.timers = st.timers ∧
      (∀ j, st1.dom.contains j = st.dom.contains j) ∧
      (∀ j, j ≠ f.id → st1.classList j = st.classList j ∧ st1.borderColor j = st.borderColor j) ∧
      ((checkField f).1 = false →
        st1.shown = st.shown ++ [(f.id, (checkField f).2)] ∧
        "error" ∈ st1.classList f.id ∧ st1.borderColor f.id = "#dc3545" ∧
        (f.id, (checkField f).2) ∈ st1.dom.errors) ∧
      ((checkField f).1 = true →
        st1.shown = st.shown ∧ "error" ∉ st1.classList f.id ∧ st1.borderColor f.id = "" ∧
        st1.dom.errors.Sublist st.dom.errors) := by
  obtain ⟨s1, hs1, hi1, hb1, ht1, hsh1, hc1, ho1, hcl1, hbo1, he1⟩ := removeError_spec st f hc
  cases hv : (checkField f).1 with
  | true =>
    refine ⟨s1, ?_, hi1, hb1, ht1, hc1, ho1, by simp, fun _ => ⟨hsh1, hcl1, hbo1, he1⟩⟩
    simp only [validateField, hs1]
    rcases hcf : checkField f with ⟨ok, msg⟩
    rw [hcf] at hv
    simp only at hv
    simp [hv]
  | false =>
    obtain ⟨s2, hs2, hi2, hb2, ht2, hsh2, hc2, ho2, hcl2, hbo2, he2⟩ :=
      showError_spec s1 f (checkField f).2 (by rw [hc1]; exact hc)
    refine ⟨s2, ?_, hi2.trans hi1, hb2.trans hb1, ht2.trans ht1, ?_, ?_, ?_, by simp⟩
    · simp only [validateField, hs1]
      rcases hcf : checkField f with ⟨ok, msg⟩
      rw [hcf] at hv hs2
      simp only at hv hs2
      simp [hv, hs2]
    · intro j; rw [hc2, hc1]
    · intro j hj
      exact ⟨(ho2 j hj).1.trans (ho1 j hj).1, (ho2 j hj).2.trans (ho1 j hj).2⟩
    · intro _
      exact ⟨by rw [hsh2, hsh1], hcl2, hbo2, he2⟩

/-- The tree an accepted pass leaves is the tree `removeError` left. -/
theorem validateField_accepted_dom (st : FormState) (f : Field) (ok : Bool) (st1 : FormState)
    (h : validateField st f = some (ok, st1)) (hok : (checkField f).1 = true) :
    Dom.atParent f.id Dom.removeFirstError st.dom = some st1.dom := by
  unfold validateField at h
  cases hr : removeError st f with
  | none => rw [hr] at h; cases h
  | some s1 =>
    rw [hr] at h
    rcases hcf : checkField f with ⟨v, msg⟩
    rw [hcf] at hok h
    simp only at hok
    subst hok
    simp only [Bool.not_true, Bool.false_eq_true, if_false, Option.some.injEq,
      Prod.mk.injEq] at h
    obtain ⟨-, rfl⟩ := h
    unfold removeError at hr
    cases hd : Dom.atParent f.id Dom.removeFirstError st.dom with
    | none => simp [hd] at hr
    | some d1 =>
      simp only [hd, Option.map_some', Option.some.injEq] at hr
      subst hr
      rfl

/-! ## The rule chain -/

theorem checkField_required_empty (f : Field) (hr : f.required = true)
    (he : trim f.value = []) : checkField f = (false, "This field is required") := by
  simp [checkField, hr, he]

theorem tagName_of_type_email (f : Field) (ht : f.type = "email") : f.tagName = "INPUT" := by
  unfold Field.type at ht
  unfold Field.tagName
  cases hctl : f.control with
  | input t => rfl
  | textarea => rw [hctl] at ht; exact absurd ht (by decide)
  | select m =>
    rw [hctl] at ht
    cases m
    · exact absurd ht (by decide)
    · exact absurd ht (by decide)

theorem tagName_of_type_tel (f : Field) (ht : f.type = "tel") : f.tagName = "INPUT" := by
  unfold Field.type at ht
  unfold Field.tagName
  cases hctl : f.control with
  | input t => rfl
  | textarea => rw [hctl] at ht; exact absurd ht (by decide)
  | select m =>
    rw [hctl] at ht
    cases m
    · exact absurd ht (by decide)
    · exact absurd ht (by decide)

theorem matchesEmailPattern_ne_nil (s : JsString) (h : MatchesEmailPattern s) : s ≠ [] := by
  obtain ⟨a, b, c, rfl, -⟩ := h
  simp

/-- Verdict of the rule chain on an email field. -/
theorem checkField_email (f : Field) (ht : f.type = "email") :
    (checkField f).1 = true ↔
      MatchesEmailPattern (trim f.value) ∨ (trim f.value = [] ∧ f.required = false) := by
  have htag := tagName_of_type_email f ht
  have hsel : ("INPUT" == "SELECT") = false := by decide
  have htel : ("email" == "tel") = false := by decide
  by_cases he : trim f.value = []
  · have hnm : ¬ MatchesEmailPattern [] :=
      fun h => matchesEmailPattern_ne_nil _ h rfl
    cases hr : f.required <;> simp [checkField, ht, htag, hsel, htel, he, hr, hnm]
  · have hem : (trim f.value).isEmpty = false := by
      cases hv : trim f.value with
      | nil => exact absurd hv he
      | cons _ _ => rfl
    rw [← emailRegex_test_iff]
    cases hm : emailRegex.test (trim f.value) <;>
      simp [checkField, ht, hem, he, hm]

/-- Verdict and message of the rule chain on a phone field with a non-blank
value. -/
theorem checkField_tel (f : Field) (ht : f.type = "tel") (he : trim f.value ≠ []) :
    ((checkField f).1 = true ↔ 10 ≤ (trim f.value).length ∧ OnlyPhoneChars (trim f.value)) ∧
    ((checkField f).1 = false → (checkField f).2 = "Please enter a valid phone number") := by
  have hem : (trim f.value).isEmpty = false := by
    cases hv : trim f.value with
    | nil => exact absurd hv he
    | cons _ _ => rfl
  have hne : ("tel" == "email") = false := by decide
  have hp := phoneRegex_test_iff (trim f.value)
  cases hm : phoneRegex.test (trim f.value) with
  | false =>
    have hno : ¬ OnlyPhoneChars (trim f.value) := by
      intro h
      have := hp.mpr ⟨he, h⟩
      rw [hm] at this; cases this
    simp [checkField, ht, hem, hne, hm, hno]
  | true =>
    have hyes : OnlyPhoneChars (trim f.value) := (hp.mp hm).2
    by_cases hl : (trim f.value).length < 10
    · have : ¬ 10 ≤ (trim f.value).length := by omega
      simp [checkField, ht, hem, hne, hm, hl, this]
    · have : 10 ≤ (trim f.value).length := by omega
      simp [checkField, ht, hem, hne, hm, hl, this, hyes]

/-- Verdict of the rule chain on a phone field with a blank value. -/
theorem checkField_tel_blank (f : Field) (ht : f.type = "tel") (he : trim f.value = []) :
    (checkField f).1 = true ↔ f.required = false := by
  have htag := tagName_of_type_tel f ht
  have hsel : ("INPUT" == "SELECT") = false := by decide
  have hne : ("tel" == "email") = false := by decide
  cases hr : f.required <;> simp [checkField, ht, htag, hsel, hne, he, hr]

/-! ## Claims about single fields -/

/-- C1: a field that has the `required` attribute and whose trimmed value is
empty is rejected by `validateField` (it returns false), whatever its type or
tag, and the message "This field is required" is shown: `showError` runs with
that message, its node is in the tree, and the field carries the error class
and the red border. -/
theorem c1_required_empty_rejected (st : FormState) (f : Field)
    (hr : f.required = true) (he : trim f.value = []) (hc : st.dom.contains f.id = true) :
    ∃ st1, validateField st f = some (false, st1) ∧
      st1.shown = st.shown ++ [(f.id, "This field is required")] ∧
      (f.id, "This field is required") ∈ st1.dom.errors ∧
      "error" ∈ st1.classList f.id ∧ st1.borderColor f.id = "#dc3545" := by
  obtain ⟨st1, h1, -, -, -, -, -, hbad, -⟩ := validateField_spec st f hc
  have hcf := checkField_required_empty f hr he
  rw [hcf] at h1 hbad
  obtain ⟨hsh, hcl, hbo, hmem⟩ := hbad rfl
  exact ⟨st1, h1, hsh, hmem, hcl, hbo⟩

/-- C1 at a concrete input: a required `select` whose value is blank. -/
theorem c1_required_empty_rejected_witness :
    ∃ st1, validateField
        (freshForm [⟨7, .select false, true, utf16 "  "⟩] (.elem (.field 7 .nil) .nil))
        ⟨7, .select false, true, utf16 "  "⟩ = some (false, st1) ∧
      st1.shown = [] ++ [(7, "This field is required")] ∧
      (7, "This field is required") ∈ st1.dom.errors ∧
      "error" ∈ st1.classList 7 ∧ st1.borderColor 7 = "#dc3545" :=
  c1_required_empty_rejected
    (freshForm [⟨7, .select false, true, utf16 "  "⟩] (.elem (.field 7 .nil) .nil))
    ⟨7, .select false, true, utf16 "  "⟩ (by decide) (by decide) (by decide)

/-- C2, refuted as stated, on both counts. The pattern: an optional email
field whose value is a no-break space (U+00A0) followed by `a@b.c` is
accepted, although that value does not match. No error shown: an optional
email input directly in the form is validated holding `abc`, the required
text area in the wrapper next to it is validated empty, then the email input
is emptied and validated; it is accepted, yet its own message "Please enter a
valid email address" is still in the tree, because the pass removed the node
of the text area instead. -/
theorem c2_counterexample :
    ((validateField (freshForm [⟨1, .input "email", false, 160 :: utf16 "a@b.c"⟩] (.field 1 .nil))
        ⟨1, .input "email", false, 160 :: utf16 "a@b.c"⟩).map Prod.fst = some true ∧
      ¬ MatchesEmailPattern (160 :: utf16 "a@b.c")) ∧
    ((validateSeq [emailBad, messageEmpty] emailNestedForm).bind fun s0 =>
      (validateField s0 emailBlank).map fun r => (s0.dom, r.1, r.2.dom)) =
      some
        (.field 1 (.elem (.field 3 (.error 3 "This field is required" .nil))
            (.error 1 "Please enter a valid email address" .nil)),
          true,
          .field 1 (.elem (.field 3 .nil)
            (.error 1 "Please enter a valid email address" .nil))) := by
  refine ⟨⟨by decide, ?_⟩, by decide⟩
  rw [← emailRegex_test_iff]
  decide

/-- C2, amended: an email field is accepted by `validateField` exactly when
its value with the white space at both ends removed matches the pattern, or
is then empty while the field is not required; in particular an optional
email field with an empty value is accepted. For an accepted field
`showError` does not run, the error class and the inline border of the field
are cleared, no error-message node is added, and when at most one
error-message node lay below the parent of the field before the call, none
lies below it after the call. -/
theorem c2_email_after_trim (st : FormState) (f : Field)
    (ht : f.type = "email") (hc : st.dom.contains f.id = true) :
    ∃ ok st1, validateField st f = some (ok, st1) ∧
      (ok = true ↔
        MatchesEmailPattern (trim f.value) ∨ (trim f.value = [] ∧ f.required = false)) ∧
      (f.required = false → f.value = [] → ok = true) ∧
      (ok = true → st1.shown = st.shown ∧ "error" ∉ st1.classList f.id ∧
        st1.borderColor f.id = "" ∧ st1.dom.errors.Sublist st.dom.errors ∧
        ∀ k, st.dom.parent f.id = some k → k.errors.length ≤ 1 →
          ∃ k1, st1.dom.parent f.id = some k1 ∧ k1.errors = []) := by
  obtain ⟨st1, h1, -, -, -, -, -, -, hgood⟩ := validateField_spec st f hc
  refine ⟨(checkField f).1, st1, h1, checkField_email f ht, ?_, ?_⟩
  · intro hr hv
    rw [checkField_email f ht]
    exact Or.inr ⟨by rw [hv]; rfl, hr⟩
  · intro hok
    obtain ⟨a1, a2, a3, a4⟩ := hgood hok
    refine ⟨a1, a2, a3, a4, ?_⟩
    intro k hk hlen
    have hdom := validateField_accepted_dom st f _ st1 h1 hok
    have hpar := Dom.parent_atParent f.id Dom.removeFirstError
      (Dom.isChild_removeFirstError f.id) st.dom st1.dom hdom
    rw [hk] at hpar
    refine ⟨k.removeFirstError, hpar, ?_⟩
    rw [Dom.errors_removeFirstError_tail]
    cases hke : k.errors with
    | nil => rfl
    | cons e es =>
      rw [hke] at hlen
      cases es with
      | nil => rfl
      | cons e2 es2 => simp at hlen

/-- C2 amended, at a concrete input: a required email input in a wrapper of
its own, showing the message of an earlier failed pass and now holding an
address after a no-break space. -/
theorem c2_email_after_trim_witness :
    ∃ ok st1, validateField emailWrapped emailNbsp = some (ok, st1) ∧
      (ok = true ↔
        MatchesEmailPattern (trim emailNbsp.value) ∨
          (trim emailNbsp.value = [] ∧ emailNbsp.required = false)) ∧
      (emailNbsp.required = false → emailNbsp.value = [] → ok = true) ∧
      (ok = true → st1.shown = emailWrapped.shown ∧ "error" ∉ st1.classList emailNbsp.id ∧
        st1.borderColor emailNbsp.id = "" ∧ st1.dom.errors.Sublist emailWrapped.dom.errors ∧
        ∀ k, emailWrapped.dom.parent emailNbsp.id = some k → k.errors.length ≤ 1 →
          ∃ k1, st1.dom.parent emailNbsp.id = some k1 ∧ k1.errors = []) :=
  c2_email_after_trim emailWrapped emailNbsp (by decide) (by decide)

/-- C3, refuted as stated: a phone field whose value is a space followed by
nine digits has length 10 and only digits and spaces, yet `validateField`
rejects it. -/
theorem c3_counterexample :
    10 ≤ (utf16 " 123456789").length ∧ OnlyPhoneChars (utf16 " 123456789") ∧
      (validateField (freshForm [⟨2, .input "tel", false, utf16 " 123456789"⟩] (.field 2 .nil))
        ⟨2, .input "tel", false, utf16 " 123456789"⟩).map Prod.fst = some false := by
  refine ⟨by decide, ?_, by decide⟩
  unfold OnlyPhoneChars
  decide

/-- C3, amended: for a phone field, write `v` for its value with the white
space at both ends removed. When `v` is not empty the field is reported valid
exactly when `v` has length at least 10 and is composed only of digits, white
space, `-`, `+`, `(` and `)`, and is otherwise reported invalid with the
message "Please enter a valid phone number". When `v` is empty the field is
reported valid exactly when it is not required. -/
theorem c3_phone_after_trim (st : FormState) (f : Field)
    (ht : f.type = "tel") (hc : st.dom.contains f.id = true) :
    ∃ ok st1, validateField st f = some (ok, st1) ∧
      (trim f.value ≠ [] →
        (ok = true ↔ 10 ≤ (trim f.value).length ∧ OnlyPhoneChars (trim f.value)) ∧
        (ok = false →
          st1.shown = st.shown ++ [(f.id, "Please enter a valid phone number")] ∧
          (f.id, "Please enter a valid phone number") ∈ st1.dom.errors)) ∧
      (trim f.value = [] → (ok = true ↔ f.required = false)) := by
  obtain ⟨st1, h1, -, -, -, -, -, hbad, -⟩ := validateField_spec st f hc
  refine ⟨(checkField f).1, st1, h1, ?_, checkField_tel_blank f ht⟩
  intro he
  obtain ⟨hiff, hmsg⟩ := checkField_tel f ht he
  refine ⟨hiff, fun hf => ?_⟩
  have := hbad hf
  rw [hmsg hf] at this
  exact ⟨this.1, this.2.2.2⟩

/-- C3 amended, at a concrete input: a phone input holding `555-1234`. -/
theorem c3_phone_after_trim_witness :
    ∃ ok st1, validateField
        (freshForm [⟨2, .input "tel", false, utf16 "555-1234"⟩] (.field 2 .nil))
        ⟨2, .input "tel", false, utf16 "555-1234"⟩ = some (ok, st1) ∧
      (trim (utf16 "555-1234") ≠ [] →
        (ok = true ↔ 10 ≤ (trim (utf16 "555-1234")).length ∧
          OnlyPhoneChars (trim (utf16 "555-1234"))) ∧
        (ok = false →
          st1.shown = [] ++ [(2, "Please enter a valid phone number")] ∧
          (2, "Please enter a valid phone number") ∈ st1.dom.errors)) ∧
      (trim (utf16 "555-1234") = [] → (ok = true ↔ false = false)) :=
  c3_phone_after_trim
    (freshForm [⟨2, .input "tel", false, utf16 "555-1234"⟩] (.field 2 .nil))
    ⟨2, .input "tel", false, utf16 "555-1234"⟩ (by decide) (by decide)

/-! ## Form-level validation and the submit listener -/

/-- The loop of `validateForm` over fields of the tree: it visits every field
in order, returns the conjunction of the verdicts, shows the message of every
invalid field and leaves the button and the timers alone. -/
theorem validateEach_spec (fs : List Field) (acc : Bool) (st : FormState)
    (hc : ∀ f ∈ fs, st.dom.contains f.id = true) :
    ∃ st1, validateEach fs acc st = some (acc && fs.all (fun f => (checkField f).1), st1) ∧
      st1.inputs = st.inputs ∧ st1.submitButton = st.submitButton ∧ st1.timers = st.timers ∧
      (∀ j, st1.dom.contains j = st.dom.contains j) ∧
      st1.shown = st.shown ++
        (fs.filter (fun f => !(checkField f).1)).map (fun f => (f.id, (checkField f).2)) ∧
      (∀ j, j ∉ fs.map Field.id → st1.classList j = st.classList j) ∧
      ((fs.map Field.id).Nodup →
        ∀ f ∈ fs, (checkField f).1 = false → "error" ∈ st1.classList f.id) := by
  induction fs generalizing acc st with
  | nil => exact ⟨st, by simp [validateEach], rfl, rfl, rfl, fun _ => rfl, by simp, by simp, by simp⟩
  | cons f rest ih =>
    obtain ⟨s1, h1, hi1, hb1, ht1, hc1, ho1, hbad1, hgood1⟩ :=
      validateField_spec st f (hc f (by simp))
    obtain ⟨s2, h2, hi2, hb2, ht2, hc2, hsh2, ho2, hcl2⟩ :=
      ih (if !(checkField f).1 then false else acc) s1
        (fun g hg => by rw [hc1]; exact hc g (by simp [hg]))
    refine ⟨s2, ?_, hi2.trans hi1, hb2.trans hb1, ht2.trans ht1, ?_, ?_, ?_, ?_⟩
    · simp only [validateEach, h1, h2, List.all_cons]
      cases (checkField f).1 <;> cases acc <;> simp
    · intro j; rw [hc2, hc1]
    · rw [hsh2]
      cases hv : (checkField f).1 with
      | true => simp [(hgood1 hv).1, hv]
      | false => simp [(hbad1 hv).1, hv]
    · intro j hj
      simp only [List.map_cons, List.mem_cons, not_or] at hj
      rw [ho2 j hj.2, (ho1 j hj.1).1]
    · intro hnd g hg hv
      simp only [List.map_cons, List.nodup_cons] at hnd
      simp only [List.mem_cons] at hg
      rcases hg with rfl | hg
      · rw [ho2 g.id hnd.1]
        exact (hbad1 hv).2.1
      · exact hcl2 hnd.2 g hg hv

/-- What holds of `validateForm` and of the submit listener on every form:
`validateForm` runs `validateField` on every required field, in document order
and without stopping at a failure, so that `showError` runs with its message
for every invalid required field (which then carries the error class), and it
returns true exactly when every required field is valid. The submit listener
calls `submitForm` exactly when `validateForm` returned true: on false the
state is left as `validateForm` left it, the button keeps its label and stays
enabled and no timer is started; on true the button is relabelled
"Sending...", disabled, and the 1500 ms timer is started. Whether the message
node of a field is still in the tree at the end is not part of this. -/
theorem validateForm_gates_submit (st : FormState)
    (hc : ∀ f ∈ st.inputs, f.required = true → st.dom.contains f.id = true) :
    ∃ ok st1, validateForm st = some (ok, st1) ∧
      (ok = true ↔ ∀ f ∈ st.inputs, f.required = true → (checkField f).1 = true) ∧
      st1.shown = st.shown ++
        ((st.inputs.filter (fun f => f.required)).filter (fun f => !(checkField f).1)).map
          (fun f => (f.id, (checkField f).2)) ∧
      ((st.inputs.map Field.id).Nodup →
        ∀ f ∈ st.inputs, f.required = true → (checkField f).1 = false →
          "error" ∈ st1.classList f.id) ∧
      st1.submitButton = st.submitButton ∧ st1.timers = st.timers ∧
      (ok = false → onSubmit st = some st1) ∧
      (ok = true → onSubmit st = submitForm st1 ∧
        ∀ b, st.submitButton = some b →
          ∃ st2, onSubmit st = some st2 ∧
            st2.submitButton = some { textContent := "Sending...", disabled := true } ∧
            st2.timers = st.timers ++ [{ delay := 1500, originalText := b.textContent }]) := by
  obtain ⟨st1, h1, -, hb1, ht1, -, hsh1, -, hcl1⟩ :=
    validateEach_spec (st.inputs.filter (fun f => f.required)) true st
      (fun f hf => by
        simp only [List.mem_filter] at hf
        exact hc f hf.1 hf.2)
  have hv : validateForm st =
      some ((st.inputs.filter (fun f => f.required)).all (fun f => (checkField f).1), st1) := by
    simpa [validateForm] using h1
  refine ⟨_, st1, hv, ?_, hsh1, ?_, hb1, ht1, ?_, ?_⟩
  · simp only [List.all_eq_true, List.mem_filter, and_imp]
  · intro hnd f hf hr hbad
    have hsub : ((st.inputs.filter (fun f => f.required)).map Field.id).Nodup :=
      List.Nodup.sublist (List.Sublist.map _ (List.filter_sublist _)) hnd
    exact hcl1 hsub f (by simp [List.mem_filter, hf, hr]) hbad
  · intro hok
    simp [onSubmit, hv, hok]
  · intro hok
    refine ⟨by simp [onSubmit, hv, hok], ?_⟩
    intro b hb
    refine ⟨{ st1 with
        submitButton := some { textContent := "Sending...", disabled := true },
        timers := st1.timers ++ [{ delay := 1500, originalText := b.textContent }] }, ?_, rfl, ?_⟩
    · simp [onSubmit, hv, hok, submitForm, hb1, hb]
    · simp [ht1]

/-- The same at a concrete input: a form with a required name left empty, an
optional phone number and a required message left empty. -/
theorem validateForm_gates_submit_example :
    ∃ ok st1, validateForm
        (freshForm [nameEmpty, phoneOk, messageEmpty]
          (.elem (.field 1 .nil) (.elem (.field 2 .nil) (.elem (.field 3 .nil) .nil)))) =
        some (ok, st1) ∧ ok = false ∧
      st1.shown = [(1, "This field is required"), (3, "This field is required")] ∧
      st1.submitButton = some { textContent := "Send Message", disabled := false } ∧
      st1.timers = [] ∧
      onSubmit
        (freshForm [nameEmpty, phoneOk, messageEmpty]
          (.elem (.field 1 .nil) (.elem (.field 2 .nil) (.elem (.field 3 .nil) .nil)))) =
        some st1 := by
  obtain ⟨ok, st1, h1, hiff, hsh, -, hb, ht, hno, -⟩ :=
    validateForm_gates_submit
      (freshForm [nameEmpty, phoneOk, messageEmpty]
        (.elem (.field 1 .nil) (.elem (.field 2 .nil) (.elem (.field 3 .nil) .nil))))
      (by decide)
  have hok : ok = false := by
    cases ok with
    | false => rfl
    | true =>
      have := hiff.mp rfl nameEmpty (by simp [freshForm]) rfl
      exact absurd this (by decide)
  exact ⟨ok, st1, h1, hok, by rw [hsh]; decide, hb, ht, hno hok⟩

/-! ## Error nodes of fields that share an ancestor -/

/-- C4, on a form whose children are a required input and a required text
area, both empty: `validateForm` returns false and marks both controls, but at
its end the only error-message node in the tree is the one of the text area.
The pass on the text area removed the node that `showError` had appended for
the input, so the input is invalid and has no message shown. -/
theorem c4_shared_parent_message_lost :
    ((validateForm (freshForm [nameEmpty, messageEmpty] (.field 1 (.field 3 .nil)))).map
      fun r => (r.1, r.2.classList 1, r.2.classList 3, r.2.dom.errorCount 1, r.2.dom)) =
      some (false, ["error"], ["error"], 0,
        .field 1 (.field 3 (.error 3 "This field is required" .nil))) := by
  decide

/-- C5, on two controls with the same parent: after `validateField` on the
empty required name and then on the (valid) phone, the name still carries the
error class but has no error-message node left, because the pass on the phone
removed the node that belonged to the name; right after the first call the
name had its one node. -/
theorem c5_shared_parent_pass_removes_other_node :
    ((validateSeq [nameEmpty] sharedParentForm).map fun st =>
        (st.classList 1, st.dom.errorCount 1, st.dom)) =
      some (["error"], 1, .field 1 (.field 2 (.error 1 "This field is required" .nil))) ∧
    ((validateSeq [nameEmpty, phoneOk] sharedParentForm).map fun st =>
        (st.classList 1, st.dom.errorCount 1, st.dom)) =
      some (["error"], 0, .field 1 (.field 2 .nil)) := by
  constructor <;> decide

/-- C6, on a control in the form next to a wrapper holding another control:
both are validated while empty, then the name is filled in. The first
`validateField` on the now valid name returns true and removes the node of
the message area; the second returns true as well but removes a further node
(the stale one of the name), so it does not leave the tree as the first call
left it. -/
theorem c6_second_pass_changes_tree :
    ((validateSeq [nameEmpty, messageEmpty] nestedForm).bind fun s0 =>
      (validateField s0 nameFilled).bind fun r1 =>
        (validateField r1.2 nameFilled).map fun r2 =>
          (s0.dom, r1.1, r1.2.dom, r2.1, r2.2.dom)) =
      some
        (.field 1 (.elem (.field 3 (.error 3 "This field is required" .nil))
            (.error 1 "This field is required" .nil)),
          true,
          .field 1 (.elem (.field 3 .nil) (.error 1 "This field is required" .nil)),
          true,
          .field 1 (.elem (.field 3 .nil) .nil)) := by
  decide

/-! ## The statistics counter -/

/-- The interval callback throws when the text has a `/`, none of `$`, `+`,
`%`, and the parsed number is below 1000: `finalText` is then still the number
returned by `Math.floor`, which has no `replace` method. Only `current` and
`step` have changed. -/
theorem tick_throws (c : Counter) (hs : c.hasSlash = true) (hd : c.hasDollar = false)
    (hp : c.hasPlus = false) (hq : c.hasPercent = false) (hn : c.number < 1000) :
    tick c = ({ c with current := c.current + c.increment, step := c.step + 1 }, false) := by
  have h1 : ¬ c.number ≥ 1000000000 := by intro h; linarith
  have h2 : ¬ c.number ≥ 1000000 := by intro h; linarith
  have h3 : ¬ c.number ≥ 1000 := by intro h; linarith
  simp [tick, hs, hd, hp, hq, h1, h2, h3, JsValue.replaceNonDigits]

/-- A counter in that situation stays in it however often the timer fires:
the text is never written and the timer is never cleared. -/
theorem fireTimes_stuck (n : Nat) (c : Counter) (hs : c.hasSlash = true)
    (hd : c.hasDollar = false) (hp : c.hasPlus = false) (hq : c.hasPercent = false)
    (hn : c.number < 1000) (ht : c.timerSet = true) :
    (fireTimes n c).hasSlash = true ∧ (fireTimes n c).hasDollar = false ∧
      (fireTimes n c).hasPlus = false ∧ (fireTimes n c).hasPercent = false ∧
      (fireTimes n c).number = c.number ∧ (fireTimes n c).timerSet = true ∧
      (fireTimes n c).textContent = c.textContent ∧ (fireTimes n c).step = c.step + n := by
  induction n generalizing c with
  | zero => exact ⟨hs, hd, hp, hq, rfl, ht, rfl, rfl⟩
  | succ n ih =>
    have hf : fire c = { c with current := c.current + c.increment, step := c.step + 1 } := by
      simp [fire, ht, tick_throws c hs hd hp hq hn]
    have := ih (fire c) (by rw [hf]; exact hs) (by rw [hf]; exact hd) (by rw [hf]; exact hp)
      (by rw [hf]; exact hq) (by rw [hf]; exact hn) (by rw [hf]; exact ht)
    simp only [fireTimes]
    rw [hf] at this ⊢
    obtain ⟨a1, a2, a3, a4, a5, a6, a7, a8⟩ := this
    exact ⟨a1, a2, a3, a4, a5, a6, a7, by rw [a8]; simp only; omega⟩

/-- How `animateCounter` starts on the text `24/7`. -/
theorem animateCounter_24_7 :
    ∃ c, animateCounter (utf16 "24/7") = some c ∧ c.hasSlash = true ∧ c.hasDollar = false ∧
      c.hasPlus = false ∧ c.hasPercent = false ∧ c.number = 247 ∧ c.timerSet = true ∧
      c.textContent = utf16 "24/7" ∧ c.step = 0 := by
  have h : (animateCounter (utf16 "24/7")).map (fun c =>
      (c.hasSlash, c.hasDollar, c.hasPlus, c.hasPercent)) = some (true, false, false, false) := by
    decide!
  have h2 : (animateCounter (utf16 "24/7")).map (fun c =>
      (c.number, c.timerSet, c.textContent, c.step)) =
      some ((247 : ℚ), true, ([50, 52, 47, 55] : List Nat), 0) := by
    decide!
  cases hc : animateCounter (utf16 "24/7") with
  | none => rw [hc] at h; cases h
  | some c =>
    rw [hc] at h h2
    simp only [Option.map_some', Option.some.injEq, Prod.mk.injEq] at h h2
    obtain ⟨a1, a2, a3, a4⟩ := h
    obtain ⟨a5, a6, a7, a8⟩ := h2
    exact ⟨c, rfl, a1, a2, a3, a4, a5, a6, a7, a8⟩

/-- C7, on the text `24/7` (a number, 247, can be parsed from it): after the
interval timer has fired 60 times, and after any number of firings, the timer
is still set, so it is never cleared and the callback keeps running (and
throwing). For the text `$1,250+` of the claim the text is restored and the
timer cleared at the 60th firing. -/
theorem c7_timer_never_cleared_on_24_7 :
    (∃ c, animateCounter (utf16 "24/7") = some c ∧
      (fireTimes 60 c).step = 60 ∧ (fireTimes 60 c).timerSet = true ∧
      ∀ n, (fireTimes n c).timerSet = true ∧ (tick (fireTimes n c)).2 = false) ∧
    (animateCounter (utf16 "$1,250+")).map (fun c =>
      ((fireTimes 60 c).textContent, (fireTimes 60 c).timerSet,
        (fireTimes 61 c).textContent)) = some (utf16 "$1,250+", false, utf16 "$1,250+") := by
  refine ⟨?_, by decide!⟩
  obtain ⟨c, hc, hs, hd, hp, hq, hn, ht, -, hst⟩ := animateCounter_24_7
  have hlt : c.number < 1000 := by rw [hn]; norm_num
  refine ⟨c, hc, ?_, ?_, ?_⟩
  · have := (fireTimes_stuck 60 c hs hd hp hq hlt ht).2.2.2.2.2.2.2
    rw [this, hst]
  · exact (fireTimes_stuck 60 c hs hd hp hq hlt ht).2.2.2.2.2.1
  · intro n
    obtain ⟨a1, a2, a3, a4, a5, a6, -, -⟩ := fireTimes_stuck n c hs hd hp hq hlt ht
    refine ⟨a6, ?_⟩
    rw [tick_throws _ a1 a2 a3 a4 (by rw [a5]; exact hlt)]

/-- C8, on the text `24/7`: no run of the interval callback completes. Each
one throws at `finalText.replace` before the text is written, so the element
keeps showing `24/7` and never the interpolated digits followed by `/7`
(`4/7` would be due after the first step, since 247 / 60 is a little above 4). -/
theorem c8_every_tick_throws_on_24_7 :
    ∃ c, animateCounter (utf16 "24/7") = some c ∧
      ∀ n, (tick (fireTimes n c)).2 = false ∧
        (tick (fireTimes n c)).1.textContent = utf16 "24/7" ∧
        (fireTimes n c).textContent = utf16 "24/7" := by
  obtain ⟨c, hc, hs, hd, hp, hq, hn, ht, htx, -⟩ := animateCounter_24_7
  have hlt : c.number < 1000 := by rw [hn]; norm_num
  refine ⟨c, hc, fun n => ?_⟩
  obtain ⟨a1, a2, a3, a4, a5, -, a7, -⟩ := fireTimes_stuck n c hs hd hp hq hlt ht
  rw [tick_throws _ a1 a2 a3 a4 (by rw [a5]; exact hlt)]
  exact ⟨rfl, by simp only; rw [a7, htx], by rw [a7, htx]⟩

/-! ## The mobile menu -/

theorem hamburgerListener_inv (s : MenuState) (h : MenuInv s) : MenuInv (hamburgerListener s) := by
  obtain ⟨h1, -⟩ := h
  unfold MenuInv hamburgerListener
  refine ⟨by simp [h1], ?_⟩
  cases s.navMenuActive <;> simp

theorem navLinkListener_inv (s : MenuState) : MenuInv (navLinkListener s) := by
  unfold MenuInv navLinkListener
  simp

theorem documentListener_inv (b : Bool) (s : MenuState) (h : MenuInv s) :
    MenuInv (documentListener b s) := by
  unfold documentListener
  split
  · unfold MenuInv; simp
  · exact h

theorem click_inv (s : MenuState) (e : Click) (h : MenuInv s) : MenuInv (click s e) := by
  unfold click
  apply documentListener_inv
  cases e.target
  · exact hamburgerListener_inv s h
  · exact navLinkListener_inv s
  · exact h

theorem clicks_inv (es : List Click) (s : MenuState) (h : MenuInv s) : MenuInv (clicks s es) := by
  induction es generalizing s with
  | nil => exact h
  | cons e es ih => exact ih (click s e) (click_inv s e h)

/-- C9, refuted as stated: a click on a hamburger that does not lie inside
`.navbar`, from the closed and unlocked start, runs the hamburger listener and
then the document listener, which closes the menu again: the state is not
flipped. -/
theorem c9_counterexample :
    click ⟨false, false, ""⟩ ⟨.hamburger, false⟩ = ⟨false, false, ""⟩ ∧
      (click ⟨false, false, ""⟩ ⟨.hamburger, false⟩).navMenuActive ≠
        !(MenuState.mk false false "").navMenuActive := by
  constructor <;> decide

/-- C9, amended: from a state where neither the hamburger nor the nav menu is
active and the body scroll is not locked, after any sequence of clicks (on the
hamburger, on a nav link, elsewhere, inside or outside `.navbar`) the
hamburger is active exactly when the nav menu is, and the body overflow is
`hidden` exactly when the menu is active; a click on the hamburger flips both
flags when its target lies inside `.navbar`, and leaves the menu closed with
the scroll unlocked when its target lies outside `.navbar`; a click on a nav
link always leaves the menu closed with the scroll unlocked. -/
theorem c9_menu_invariant (s0 : MenuState) (h0 : s0.hamburgerActive = false)
    (h1 : s0.navMenuActive = false) (h2 : s0.bodyOverflow ≠ "hidden") (es : List Click) :
    (clicks s0 es).hamburgerActive = (clicks s0 es).navMenuActive ∧
    ((clicks s0 es).bodyOverflow = "hidden" ↔ (clicks s0 es).navMenuActive = true) ∧
    (∀ e : Click, e.target = .hamburger → e.insideNavbar = true →
      (click (clicks s0 es) e).navMenuActive = !(clicks s0 es).navMenuActive ∧
      (click (clicks s0 es) e).hamburgerActive = !(clicks s0 es).hamburgerActive) ∧
    (∀ e : Click, e.target = .navLink →
      (click (clicks s0 es) e).navMenuActive = false ∧
      (click (clicks s0 es) e).hamburgerActive = false ∧
      (click (clicks s0 es) e).bodyOverflow = "") ∧
    (∀ e : Click, e.target = .hamburger → e.insideNavbar = false →
      (click (clicks s0 es) e).navMenuActive = false ∧
      (click (clicks s0 es) e).hamburgerActive = false ∧
      (click (clicks s0 es) e).bodyOverflow = "") := by
  have hinv : MenuInv (clicks s0 es) := clicks_inv es s0 ⟨by rw [h0, h1], by simp [h1, h2]⟩
  refine ⟨hinv.1, hinv.2, ?_, ?_, ?_⟩
  · intro e ht hn
    simp [click, ht, hn, documentListener, hamburgerListener]
  · intro e ht
    cases hn : e.insideNavbar <;> simp [click, ht, hn, documentListener, navLinkListener]
  · intro e ht hn
    have hh := hinv.1
    cases hm : (clicks s0 es).navMenuActive <;>
      simp [click, ht, hn, documentListener, hamburgerListener, hm, hh]

/-- C9 amended, at a concrete input: open with the hamburger, click outside,
open again; the flags agree, and one more click on the hamburger inside
`.navbar` flips the state. -/
theorem c9_menu_invariant_witness :
    (clicks ⟨false, false, ""⟩ [⟨.hamburger, true⟩, ⟨.other, false⟩, ⟨.hamburger, true⟩])
        = ⟨true, true, "hidden"⟩ ∧
      (click ⟨true, true, "hidden"⟩ ⟨.navLink, true⟩) = ⟨false, false, ""⟩ ∧
      (clicks ⟨false, false, ""⟩
          [⟨.hamburger, true⟩, ⟨.other, false⟩, ⟨.hamburger, true⟩]).hamburgerActive =
        (clicks ⟨false, false, ""⟩
          [⟨.hamburger, true⟩, ⟨.other, false⟩, ⟨.hamburger, true⟩]).navMenuActive ∧
      (click (clicks ⟨false, false, ""⟩
          [⟨.hamburger, true⟩, ⟨.other, false⟩, ⟨.hamburger, true⟩])
          ⟨.hamburger, true⟩).navMenuActive =
        !(clicks ⟨false, false, ""⟩
          [⟨.hamburger, true⟩, ⟨.other, false⟩, ⟨.hamburger, true⟩]).navMenuActive :=
  ⟨by decide, by decide,
    (c9_menu_invariant ⟨false, false, ""⟩ rfl rfl (by decide)
      [⟨.hamburger, true⟩, ⟨.other, false⟩, ⟨.hamburger, true⟩]).1,
    ((c9_menu_invariant ⟨false, false, ""⟩ rfl rfl (by decide)
      [⟨.hamburger, true⟩, ⟨.other, false⟩, ⟨.hamburger, true⟩]).2.2.1
      ⟨.hamburger, true⟩ rfl rfl).1⟩

/-! ## The active navigation link -/

theorem markLink_href (sid : String) (l : NavLink) : (markLink sid l).href = l.href := by
  unfold markLink
  split <;> rfl

theorem markLink_active (sid : String) (l : NavLink) :
    (markLink sid l).active = (l.href == some ("#" ++ sid)) := by
  unfold markLink
  split <;> rename_i h <;> simp [h]

theorem filterMap_href_map_markLink (sid : String) (links : List NavLink) :
    (links.map (markLink sid)).filterMap NavLink.href = links.filterMap NavLink.href := by
  induction links with
  | nil => rfl
  | cons l ls ih =>
    simp only [List.map_cons, List.filterMap_cons, markLink_href, ih]

theorem activeCount_map_markLink_zero (sid : String) (links : List NavLink)
    (h : ("#" ++ sid) ∉ links.filterMap NavLink.href) :
    activeCount (links.map (markLink sid)) = 0 := by
  induction links with
  | nil => rfl
  | cons l ls ih =>
    have hl : l.href ≠ some ("#" ++ sid) := by
      intro hl
      exact h (by simp [List.filterMap_cons, hl])
    have hls : ("#" ++ sid) ∉ ls.filterMap NavLink.href := by
      intro hm
      apply h
      cases hh : l.href <;> simp [List.filterMap_cons, hh, hm]
    have := ih hls
    unfold activeCount at this ⊢
    simp only [List.map_cons, List.filter_cons, markLink_active]
    simp [hl, this]

/-- After a matching section has been handled, at most one link is active
when the `href` values are pairwise distinct. -/
theorem activeCount_map_markLink (sid : String) (links : List NavLink)
    (hd : (links.filterMap NavLink.href).Nodup) :
    activeCount (links.map (markLink sid)) ≤ 1 := by
  induction links with
  | nil => simp [activeCount]
  | cons l ls ih =>
    cases hh : l.href with
    | none =>
      have hd2 : (ls.filterMap NavLink.href).Nodup := by
        simpa [List.filterMap_cons, hh] using hd
      have := ih hd2
      unfold activeCount at this ⊢
      simp only [List.map_cons, List.filter_cons, markLink_active, hh]
      simpa using this
    | some x =>
      have hd2 : x ∉ ls.filterMap NavLink.href ∧ (ls.filterMap NavLink.href).Nodup := by
        simpa [List.filterMap_cons, hh] using hd
      by_cases hx : x = "#" ++ sid
      · have h0 := activeCount_map_markLink_zero sid ls (by rw [← hx]; exact hd2.1)
        unfold activeCount at h0 ⊢
        simp only [List.map_cons, List.filter_cons, markLink_active, hh]
        simp [hx, h0]
      · have := ih hd2.2
        unfold activeCount at this ⊢
        simp only [List.map_cons, List.filter_cons, markLink_active, hh]
        simpa [hx] using this

/-- C10, refuted as stated: with two links that both point to `#home` and the
section `home` under the scroll position, both links are active after the
handler; and with no matching section two links that were active stay so. -/
theorem c10_counterexample :
    ¬ activeCount (activeLinkHandler [⟨"home", 0, 800⟩] 0
        [⟨some "#home", false⟩, ⟨some "#home", false⟩]) ≤ 1 ∧
      ¬ activeCount (activeLinkHandler [⟨"home", 0, 800⟩] 5000
        [⟨some "#home", true⟩, ⟨some "#about", true⟩]) ≤ 1 := by
  constructor <;> decide!

/-- C10, amended: for every list of sections, every scroll position and every
list of navigation links whose `href` values are pairwise distinct, if at most
one link is active before the handler runs then at most one is active after
it. -/
theorem c10_at_most_one_active (sections : List Section) (pageYOffset : ℚ)
    (links : List NavLink) (hd : (links.filterMap NavLink.href).Nodup)
    (h1 : activeCount links ≤ 1) :
    activeCount (activeLinkHandler sections pageYOffset links) ≤ 1 := by
  unfold activeLinkHandler
  simp only
  induction sections generalizing links with
  | nil => simpa using h1
  | cons s ss ih =>
    simp only [List.foldl_cons]
    split
    · exact ih _ (by rw [filterMap_href_map_markLink]; exact hd)
        (activeCount_map_markLink s.id links hd)
    · exact ih links hd h1

/-- C10 amended, at a concrete input: three links, the second section under
the scroll position. -/
theorem c10_at_most_one_active_witness :
    activeCount (activeLinkHandler [⟨"home", 0, 800⟩, ⟨"about", 800, 600⟩] 700
      [⟨some "#home", true⟩, ⟨some "#about", false⟩, ⟨none, false⟩]) ≤ 1 :=
  c10_at_most_one_active [⟨"home", 0, 800⟩, ⟨"about", 800, 600⟩] 700
    [⟨some "#home", true⟩, ⟨some "#about", false⟩, ⟨none, false⟩] (by decide) (by decide)

/-! ## The back-to-top control -/

theorem backToTopHandler_visible (pageYOffset : ℚ) (classList : List String) :
    "visible" ∈ backToTopHandler pageYOffset classList ↔ pageYOffset > 500 := by
  unfold backToTopHandler
  by_cases h : pageYOffset > 500
  · simp only [h, if_true, iff_true]
    exact mem_classAdd classList "visible"
  · simp only [h, if_false, iff_false]
    exact not_mem_classRemove classList "visible"

/-- The first scroll event after `init` is let through, whenever it comes. -/
theorem backToTopScroll_init (now : Nat) (pageYOffset : ℚ) (classList : List String) :
    backToTopScroll now pageYOffset (backToTopInit classList) =
      { inThrottle := true, pending := [now + 200],
        target := backToTopHandler pageYOffset classList } := by
  simp [backToTopScroll, backToTopInit, Throttled.elapse, throttle]

/-- A scroll event that finds the throttle open runs the handler. -/
theorem backToTopScroll_open (now : Nat) (pageYOffset : ℚ) (s : Throttled (List String))
    (h : (s.elapse now).inThrottle = false) :
    (backToTopScroll now pageYOffset s).target = backToTopHandler pageYOffset s.target := by
  unfold backToTopScroll throttle
  rw [h]
  rfl

/-- A scroll event that finds the throttle closed is dropped. -/
theorem backToTopScroll_closed (now : Nat) (pageYOffset : ℚ) (s : Throttled (List String))
    (h : (s.elapse now).inThrottle = true) :
    (backToTopScroll now pageYOffset s).target = s.target := by
  unfold backToTopScroll throttle
  rw [h]
  rfl

/-- C11, refuted as stated: the page jumps to 600 at time 0 and is back at 0
at time 100. The second scroll event falls inside the 200 ms of the throttle
and is dropped, so the control still carries `visible` with the page at 0. -/
theorem c11_counterexample :
    "visible" ∉ (backToTopInit ["back-to-top"]).target ∧
      "visible" ∈ (backToTopScroll 0 600 (backToTopInit ["back-to-top"])).target ∧
      "visible" ∈
        (backToTopScroll 100 0 (backToTopScroll 0 600 (backToTopInit ["back-to-top"]))).target := by
  refine ⟨by decide, by decide!, by decide!⟩

/-- C11, amended: when scrollY goes from 0 to 600 the control gets the class
`visible`, whenever that first scroll event comes; when scrollY then returns
to 0 the control loses it provided the second scroll event comes at least
200 ms after the first (the throttle timer has then run), while a second
event that comes earlier is dropped and leaves the control visible; in general
after a scroll event that the throttle lets through the control is visible
exactly when scrollY > 500. -/
theorem c11_back_to_top_throttled (classList : List String) (t1 t2 : Nat) :
    "visible" ∈ (backToTopScroll t1 600 (backToTopInit classList)).target ∧
    (t1 + 200 ≤ t2 →
      "visible" ∉
        (backToTopScroll t2 0 (backToTopScroll t1 600 (backToTopInit classList))).target) ∧
    (t2 < t1 + 200 →
      "visible" ∈
        (backToTopScroll t2 0 (backToTopScroll t1 600 (backToTopInit classList))).target) ∧
    (∀ (s : Throttled (List String)) (now : Nat) (pageYOffset : ℚ),
      (s.elapse now).inThrottle = false →
        ("visible" ∈ (backToTopScroll now pageYOffset s).target ↔ pageYOffset > 500)) := by
  have h600 : "visible" ∈ backToTopHandler 600 classList :=
    (backToTopHandler_visible 600 classList).mpr (by norm_num)
  refine ⟨?_, ?_, ?_, ?_⟩
  · rw [backToTopScroll_init]; exact h600
  · intro h
    rw [backToTopScroll_init, backToTopScroll_open _ _ _ (by simp [Throttled.elapse, h])]
    rw [backToTopHandler_visible]
    norm_num
  · intro h
    rw [backToTopScroll_init,
      backToTopScroll_closed _ _ _ (by simp [Throttled.elapse]; omega)]
    exact h600
  · intro s now y h
    rw [backToTopScroll_open _ _ _ h]
    exact backToTopHandler_visible y s.target

/-- C11 amended, at a concrete input: the page jumps to 600 at time 40 and is
back at 0 at time 300. -/
theorem c11_back_to_top_throttled_witness :
    "visible" ∈ (backToTopScroll 40 600 (backToTopInit ["back-to-top"])).target ∧
    "visible" ∉
      (backToTopScroll 300 0 (backToTopScroll 40 600 (backToTopInit ["back-to-top"]))).target :=
  ⟨(c11_back_to_top_throttled ["back-to-top"] 40 300).1,
    (c11_back_to_top_throttled ["back-to-top"] 40 300).2.1 (by decide)⟩

/-! ## Last match wins -/

theorem markLink_eq_flagFor (sid : String) (l : NavLink) : markLink sid l = flagFor sid l := by
  unfold markLink flagFor
  by_cases h : l.href = some ("#" ++ sid)
  · simp [h]
  · simp [h]

theorem map_flagFor_foldl (sid : String) (ms : List Section) (links : List NavLink) :
    (ms.foldl (fun ls m => ls.map (flagFor m.id)) links).map (flagFor sid) =
      links.map (flagFor sid) := by
  induction ms generalizing links with
  | nil => rfl
  | cons m ms ih =>
    simp only [List.foldl_cons]
    rw [ih, List.map_map]
    rfl

/-- The handler only acts on the sections in view, each of which re-flags
every link. -/
theorem activeLinkHandler_eq_foldl (sections : List Section) (pageYOffset : ℚ)
    (links : List NavLink) :
    activeLinkHandler sections pageYOffset links =
      (sections.filter (sectionInView pageYOffset)).foldl
        (fun ls m => ls.map (flagFor m.id)) links := by
  unfold activeLinkHandler
  simp only
  induction sections generalizing links with
  | nil => rfl
  | cons m ms ih =>
    simp only [List.foldl_cons, List.filter_cons]
    by_cases hm : sectionInView pageYOffset m = true
    · have hc : pageYOffset + 200 ≥ (m.offsetTop : ℚ) ∧
          pageYOffset + 200 < (m.offsetTop : ℚ) + (m.offsetHeight : ℚ) := by
        simpa [sectionInView] using hm
      rw [if_pos hc, if_pos hm, List.foldl_cons, ih]
      congr 1
      exact List.map_congr_left (fun l _ => markLink_eq_flagFor m.id l)
    · have hc : ¬ (pageYOffset + 200 ≥ (m.offsetTop : ℚ) ∧
          pageYOffset + 200 < (m.offsetTop : ℚ) + (m.offsetHeight : ℚ)) := by
        simpa [sectionInView] using hm
      rw [if_neg hc, if_neg hm, ih]

/-- C12: when at least one section satisfies
`sectionTop <= scrollY + 200 < sectionTop + sectionHeight` and `s` is the last
such section in iteration order, then after the handler has run every link
keeps its `href` and carries `active` exactly when its `href` is `#` followed
by the id of `s`; when no section satisfies it the links are left as they
were. -/
theorem c12_last_match_wins (sections : List Section) (pageYOffset : ℚ)
    (links : List NavLink) :
    (∀ s, (sections.filter (sectionInView pageYOffset)).getLast? = some s →
      activeLinkHandler sections pageYOffset links = links.map (flagFor s.id) ∧
      ∀ l ∈ activeLinkHandler sections pageYOffset links,
        (l.active = true ↔ l.href = some ("#" ++ s.id))) ∧
    (sections.filter (sectionInView pageYOffset) = [] →
      activeLinkHandler sections pageYOffset links = links) := by
  rw [activeLinkHandler_eq_foldl]
  constructor
  · intro s hs
    obtain ⟨ms, hms⟩ := List.getLast?_eq_some_iff.mp hs
    have heq : (sections.filter (sectionInView pageYOffset)).foldl
        (fun ls m => ls.map (flagFor m.id)) links = links.map (flagFor s.id) := by
      rw [hms, List.foldl_append]
      simp only [List.foldl_cons, List.foldl_nil]
      exact map_flagFor_foldl s.id ms links
    refine ⟨heq, ?_⟩
    intro l hl
    rw [heq, List.mem_map] at hl
    obtain ⟨l0, -, rfl⟩ := hl
    simp [flagFor]
  · intro h
    rw [h]
    rfl

/-- C12 at a concrete input: two overlapping sections in view, the later one
wins; the link that was active loses the class. -/
theorem c12_last_match_wins_witness :
    activeLinkHandler [⟨"home", 0, 900⟩, ⟨"about", 800, 600⟩, ⟨"contact", 1400, 500⟩] 650
        [⟨some "#home", true⟩, ⟨some "#about", false⟩, ⟨some "#contact", false⟩, ⟨none, false⟩] =
      [⟨some "#home", false⟩, ⟨some "#about", true⟩, ⟨some "#contact", false⟩, ⟨none, false⟩] :=
  ((c12_last_match_wins [⟨"home", 0, 900⟩, ⟨"about", 800, 600⟩, ⟨"contact", 1400, 500⟩] 650
    [⟨some "#home", true⟩, ⟨some "#about", false⟩, ⟨some "#contact", false⟩, ⟨none, false⟩]).1
    ⟨"about", 800, 600⟩ (by decide!)).1.trans (by decide)

/-! ## Debounce -/

/-- While a burst lasts, exactly one timer is pending, that of the latest
call, and `func` has not been called. -/
theorem debounceCalls_burst {α : Type} (wait : Nat) (rest : List (Nat × α)) (p : Nat × α)
    (s : Debounced α) (i : Nat) (hinv : s.invoked = []) (hto : s.timeout = some i)
    (hp : s.pending = [{ id := i, due := p.1 + wait, args := p.2 }])
    (hb : isBurst wait p rest = true) :
    (debounceCalls wait rest s).invoked = [] ∧
      ∃ j, (debounceCalls wait rest s).timeout = some j ∧
        (debounceCalls wait rest s).pending =
          [{ id := j, due := (rest.getLastD p).1 + wait, args := (rest.getLastD p).2 }] := by
  induction rest generalizing p s i with
  | nil => exact ⟨hinv, i, hto, hp⟩
  | cons q rest ih =>
    obtain ⟨now, args⟩ := q
    simp only [isBurst, Bool.and_eq_true, decide_eq_true_eq] at hb
    obtain ⟨⟨-, hlt⟩, hrest⟩ := hb
    have hlt2 : ¬ p.1 + wait ≤ now := by omega
    have hel : s.elapse now = s := by
      simp [Debounced.elapse, hp, hlt2]
    rw [List.getLastD_cons]
    simp only [debounceCalls, hel]
    exact ih (now, args) (debounce wait now args s) s.nextId
      (by simp [debounce, hinv]) rfl
      (by simp [debounce, hto, hp, clearTimeout]) hrest

/-- The event loop on a state whose only pending timer is the one the
variable `timeout` names: nothing happens before the timer is due; once it is
due `func` is called with its arguments and no timer is left. -/
theorem elapse_single_timer {α : Type} (s : Debounced α) (j d : Nat) (a : α) (T : Nat)
    (hinv : s.invoked = []) (hto : s.timeout = some j)
    (hp : s.pending = [{ id := j, due := d, args := a }]) :
    (T < d → (s.elapse T).invoked = []) ∧
    (d ≤ T → (s.elapse T).invoked = [(d, a)] ∧ (s.elapse T).pending = []) := by
  constructor
  · intro hT
    have hT2 : ¬ d ≤ T := by omega
    simp [Debounced.elapse, hp, hT2, hinv]
  · intro hT
    simp [Debounced.elapse, hp, hT, runTimer, later, clearTimeout, hto, hinv]

/-- C13: for a burst of calls of a debounced function, each less than `wait`
ms after the previous one, the timers of all earlier calls are cancelled (at
the end of the burst only the timer of the last call is pending and `func` has
not run), and `func` is invoked exactly once, with the arguments of the last
call, `wait` ms after that call: not before, and once that time has come the
trace holds that single invocation and no timer is left. -/
theorem c13_debounce_burst {α : Type} (wait : Nat) (first : Nat × α) (rest : List (Nat × α))
    (hb : isBurst wait first rest = true) (T : Nat) :
    (debounceCalls wait (first :: rest) Debounced.fresh).invoked = [] ∧
    (debounceCalls wait (first :: rest) Debounced.fresh).pending.map (fun l => (l.due, l.args)) =
      [((rest.getLastD first).1 + wait, (rest.getLastD first).2)] ∧
    (T < (rest.getLastD first).1 + wait →
      ((debounceCalls wait (first :: rest) Debounced.fresh).elapse T).invoked = []) ∧
    ((rest.getLastD first).1 + wait ≤ T →
      ((debounceCalls wait (first :: rest) Debounced.fresh).elapse T).invoked =
        [((rest.getLastD first).1 + wait, (rest.getLastD first).2)] ∧
      ((debounceCalls wait (first :: rest) Debounced.fresh).elapse T).pending = []) := by
  obtain ⟨t1, a1⟩ := first
  have hstart : debounceCalls wait ((t1, a1) :: rest) Debounced.fresh =
      debounceCalls wait rest
        { timeout := some 1, nextId := 2,
          pending := [{ id := 1, due := t1 + wait, args := a1 }], invoked := [] } := by
    simp [debounceCalls, Debounced.elapse, Debounced.fresh, debounce, clearTimeout]
  rw [hstart]
  obtain ⟨hinv, j, hto, hp⟩ := debounceCalls_burst wait rest (t1, a1)
    { timeout := some 1, nextId := 2,
      pending := [{ id := 1, due := t1 + wait, args := a1 }], invoked := [] } 1 rfl rfl rfl hb
  have hel := elapse_single_timer _ j _ _ T hinv hto hp
  exact ⟨hinv, by rw [hp]; rfl, hel.1, hel.2⟩

/-- C13 at a concrete input: three calls 10 ms apart with `wait` = 20. -/
theorem c13_debounce_burst_witness :
    ((debounceCalls 20 [(0, "a"), (10, "b"), (20, "c")] Debounced.fresh).elapse 40).invoked =
      [(40, "c")] ∧
    ((debounceCalls 20 [(0, "a"), (10, "b"), (20, "c")] Debounced.fresh).elapse 39).invoked = [] :=
  ⟨((c13_debounce_burst 20 (0, "a") [(10, "b"), (20, "c")]
      (by decide) 40).2.2.2 (by decide)).1,
    (c13_debounce_burst 20 (0, "a") [(10, "b"), (20, "c")]
      (by decide) 39).2.2.1 (by decide)⟩

end Cnrestate
